/-
Verification of the QuestionPaperGenerator backend core.

This file gives a shallow embedding, in Lean 4, of the two core services of
the repository:

  * app/services/question_generator.py  (distribution planner, question
    synthesizer with retry/fallback, response parsing), and
  * app/services/syllabus_parser.py     (text normalizer, three-tier
    unit/topic extraction, reference-section filter),

together with theorems settling the frozen specification claims.

Conventions of the embedding:

  * Python strings are modelled as `List Char` (with `String` wrappers at
    the entity level).  Regular-expression operations of the source are
    modelled by dedicated matchers, one per concrete pattern, reproducing
    Python `re` backtracking semantics for that pattern (documented at each
    definition).  Whitespace classes are the ASCII part of Python `\s`.
  * Python dicts (insertion ordered) are modelled as association lists with
    update-in-place-or-append semantics.
  * Fallible code (ZeroDivisionError, json decoding errors) is modelled
    with `Except` / `Option`.
  * Sources of randomness (`uuid.uuid4().hex[:8]`, the external Gemini
    call) are modelled as explicit function parameters.
  * Loops whose recursion is not structural are given explicit fuel, always
    called with a sufficient bound computed from the input.
-/
import Mathlib

set_option maxHeartbeats 1000000

/-! # Data model (app/models/schemas.py) -/

/-- `DifficultyLevel` enum from app/models/schemas.py. -/
inductive DifficultyLevel where
  | easy
  | medium
  | hard
deriving DecidableEq, Repr

/-- `QuestionType` enum from app/models/schemas.py. -/
inductive QuestionType where
  | multiple_choice
  | short_answer
  | descriptive
  | essay
  | true_false
  | fill_blank
deriving DecidableEq, Repr

/-- `Unit` model from app/models/schemas.py (named `MUnit` because `Unit`
is taken by the Lean prelude). -/
structure MUnit where
  id     : String
  title  : String
  topics : List String
  order  : Nat
deriving DecidableEq, Repr

/-- `QuestionTypeConfig` from app/models/schemas.py: one question-type
request (marks, count, type, optional difficulty).  pydantic enforces
`marks > 0` and `count > 0`; those constraints appear as hypotheses where
needed. -/
structure QuestionTypeConfig where
  marks      : Nat
  count      : Nat
  type       : QuestionType
  difficulty : Option DifficultyLevel
deriving DecidableEq, Repr

/-- `Question` model from app/models/schemas.py. -/
structure Question where
  id                 : String
  unit_id            : String
  unit_name          : String
  question_text      : String
  marks              : Nat
  type               : QuestionType
  difficulty         : DifficultyLevel
  options            : Option (List String)
  correct_answer     : Option String
  answer_explanation : Option String
  course_outcome     : Option String
  blooms_level       : Option String
deriving DecidableEq, Repr

/-! # Association lists modelling Python dicts

Python dicts are insertion ordered; assignment to an existing key updates
in place, assignment to a new key appends. -/

/-- Dict assignment `d[k] = v`: update in place if present, else append. -/
def updAssoc {κ α : Type} [DecidableEq κ] (k : κ) (v : α) :
    List (κ × α) → List (κ × α)
  | [] => [(k, v)]
  | (k', v') :: rest =>
      if k' = k then (k, v) :: rest else (k', v') :: updAssoc k v rest

/-- Dict lookup `d.get(k)`. -/
def lookupAssoc {κ α : Type} [DecidableEq κ] (k : κ) :
    List (κ × α) → Option α
  | [] => none
  | (k', v') :: rest => if k' = k then some v' else lookupAssoc k rest

/-! # Distribution planner
(`QuestionGenerator._calculate_distribution`, question_generator.py 85-118) -/

/-- One inner-dict value of the distribution:
`{'marks': ..., 'count': ..., 'difficulty': ...}`. -/
structure SlotConfig where
  marks      : Nat
  count      : Nat
  difficulty : DifficultyLevel
deriving DecidableEq, Repr

/-- The planner's return value `{unit_id: {question_type: slot}}` as nested
insertion-ordered association lists. -/
def Distribution : Type := List (String × List (QuestionType × SlotConfig))

instance : DecidableEq Distribution := by
  unfold Distribution; infer_instance

/-- The per-unit question count the distribution assigns to `(uid, qt)`;
an absent entry means zero questions. -/
def countFor (d : Distribution) (uid : String) (qt : QuestionType) : Nat :=
  match lookupAssoc uid d with
  | none => 0
  | some inner =>
      match lookupAssoc qt inner with
      | none => 0
      | some slot => slot.count

/-- Body of `for i, unit in enumerate(units)` in `_calculate_distribution`:
ensure the outer key exists (`if unit.id not in distribution:
distribution[unit.id] = {}`), then write the slot when its count is
positive.  `i` is the 0-based index of `u`, `base`/`rem` the precomputed
`count // num_units` / `count % num_units`. -/
def distUnitStep (qt : QuestionType) (marks : Nat)
    (difficulty : DifficultyLevel) (base rem : Nat) (i : Nat) (u : MUnit)
    (dist : Distribution) : Distribution :=
  let d1 : Distribution :=
    match lookupAssoc u.id dist with
    | none => updAssoc u.id ([] : List (QuestionType × SlotConfig)) dist
    | some _ => dist
  let cnt := base + (if i < rem then 1 else 0)
  if 0 < cnt then
    let inner := (lookupAssoc u.id d1).getD []
    updAssoc u.id (updAssoc qt ⟨marks, cnt, difficulty⟩ inner) d1
  else d1

/-- The unit loop of `_calculate_distribution` for one request, starting at
index `i`. -/
def distUnitsGo (qt : QuestionType) (marks : Nat)
    (difficulty : DifficultyLevel) (base rem : Nat) :
    Nat → List MUnit → Distribution → Distribution
  | _, [], dist => dist
  | i, u :: us, dist =>
      distUnitsGo qt marks difficulty base rem (i + 1) us
        (distUnitStep qt marks difficulty base rem i u dist)

/-- Processing of a single `qt_config` by `_calculate_distribution`:
`base_count = count // num_units`, `remainder = count % num_units`,
missing difficulty defaults to medium. -/
def distReqStep (units : List MUnit) (req : QuestionTypeConfig)
    (dist : Distribution) : Distribution :=
  let base := req.count / units.length
  let rem := req.count % units.length
  distUnitsGo req.type req.marks (req.difficulty.getD .medium) base rem
    0 units dist

/-- The request loop of `_calculate_distribution`.  Python raises
`ZeroDivisionError` at `count // num_units` on the first iteration when
the unit list is empty; modelled with `Except`. -/
def distReqsGo (units : List MUnit) :
    List QuestionTypeConfig → Distribution → Except String Distribution
  | [], dist => .ok dist
  | req :: reqs, dist =>
      if units.length = 0 then
        .error "integer division or modulo by zero"
      else
        distReqsGo units reqs (distReqStep units req dist)

/-- `QuestionGenerator._calculate_distribution`
(question_generator.py 85-118). -/
def calculate_distribution (units : List MUnit)
    (reqs : List QuestionTypeConfig) : Except String Distribution :=
  distReqsGo units reqs []

/-! # Character and string utilities shared by both services

ASCII fragment of Python's `\s` class and of `str.strip()`. -/

/-- ASCII whitespace, the ASCII fragment of Python `\s` / `str.strip()`:
space, tab, newline, carriage return, vertical tab, form feed. -/
def isSpaceC (c : Char) : Bool :=
  c = ' ' || c = '\t' || c = '\n' || c = '\x0d' || c = '\x0b' || c = '\x0c'

/-- Python `str.strip()` (ASCII whitespace fragment). -/
def trimC (s : List Char) : List Char :=
  ((s.dropWhile isSpaceC).reverse.dropWhile isSpaceC).reverse

/-- Does `pat` occur as a prefix of `s`? (case-sensitive). -/
def isPrefC : List Char → List Char → Bool
  | [], _ => true
  | _ :: _, [] => false
  | p :: ps, c :: cs => p = c && isPrefC ps cs

/-- Python `pat in s` (case-sensitive substring containment). -/
def containsSub (pat : List Char) : List Char → Bool
  | [] => isPrefC pat []
  | c :: cs => isPrefC pat (c :: cs) || containsSub pat cs

/-- One step of Python `str.split(sep)` for a non-empty separator: the part
before the first occurrence of `sep`, and the remainder after it, if any. -/
def splitSubOnce (pat : List Char) : List Char → List Char × Option (List Char)
  | [] => ([], none)
  | c :: cs =>
      if isPrefC pat (c :: cs) then ([], some ((c :: cs).drop pat.length))
      else
        let (pre, rest) := splitSubOnce pat cs
        (c :: pre, rest)

/-- Python `str.split(sep)` for a non-empty separator: non-overlapping
split, empty parts kept.  `fuel` bounds the number of parts (length of the
string + 1 always suffices). -/
def splitSub (pat : List Char) : Nat → List Char → List (List Char)
  | 0, s => [s]
  | fuel + 1, s =>
      match splitSubOnce pat s with
      | (pre, none) => [pre]
      | (pre, some rest) => pre :: splitSub pat fuel rest

/-- Index of the first occurrence of character `c` (Python `str.find`),
as an `Option` instead of `-1`. -/
def findCharIdx (c : Char) : List Char → Option Nat
  | [] => none
  | d :: ds =>
      if d = c then some 0
      else (findCharIdx c ds).map (· + 1)

/-- Index of the last occurrence of character `c` (Python `str.rfind`),
as an `Option` instead of `-1`. -/
def rfindCharIdx (c : Char) (s : List Char) : Option Nat :=
  (findCharIdx c s.reverse).map (fun i => s.length - 1 - i)

/-! # Question synthesizer
(`QuestionGenerator`, question_generator.py 120-448) -/

/-- A parsed JSON value, restricted to the shapes the synthesizer probes:
strings and arrays of strings.  This is the fragment of `json.loads`
output the verification exercises (string literals without escape
sequences); anything outside the fragment is a parse error. -/
inductive JVal where
  | str (s : String)
  | arrS (xs : List String)
deriving DecidableEq, Repr

/-- Skip JSON insignificant whitespace. -/
def jSkipWs (s : List Char) : List Char :=
  s.dropWhile isSpaceC

/-- Parse a JSON string literal body after the opening quote, without
escape-sequence support (inputs considered contain none): the characters
up to the closing quote. -/
def jStringBody : List Char → Except String (List Char × List Char)
  | [] => .error "Unterminated string"
  | c :: cs =>
      if c = '"' then .ok ([], cs)
      else if c = '\\' then .error "escape sequences not modelled"
      else do
        let (body, rest) ← jStringBody cs
        .ok (c :: body, rest)

/-- Parse a JSON array of string literals after the opening bracket. -/
def jArrBody : Nat → List Char → Except String (List String × List Char)
  | 0, _ => .error "Expecting value"
  | fuel + 1, s =>
      let s := jSkipWs s
      match s with
      | ']' :: rest => .ok ([], rest)
      | '"' :: cs => do
          let (body, rest) ← jStringBody cs
          let rest := jSkipWs rest
          match rest with
          | ',' :: rest2 => do
              let (xs, rest3) ← jArrBody fuel rest2
              .ok (String.mk body :: xs, rest3)
          | ']' :: rest2 => .ok ([String.mk body], rest2)
          | _ => .error "Expecting ',' delimiter"
      | _ => .error "Expecting value"

/-- Parse one JSON value of the modelled fragment. -/
def jValue (fuel : Nat) (s : List Char) :
    Except String (JVal × List Char) :=
  match s with
  | '"' :: cs => do
      let (body, rest) ← jStringBody cs
      .ok (.str (String.mk body), rest)
  | '[' :: cs => do
      let (xs, rest) ← jArrBody fuel cs
      .ok (.arrS xs, rest)
  | _ => .error "Expecting value"

/-- Parse the members of a JSON object after the opening brace.  Duplicate
keys resolve to the last occurrence, as in `json.loads`. -/
def jObjBody : Nat → List (String × JVal) → List Char →
    Except String (List (String × JVal) × List Char)
  | 0, _, _ => .error "Expecting value"
  | fuel + 1, acc, s =>
      let s := jSkipWs s
      match s with
      | '}' :: rest => .ok (acc, rest)
      | '"' :: cs => do
          let (key, rest) ← jStringBody cs
          let rest := jSkipWs rest
          match rest with
          | ':' :: rest2 => do
              let (v, rest3) ← jValue fuel (jSkipWs rest2)
              let acc := updAssoc (String.mk key) v acc
              let rest4 := jSkipWs rest3
              match rest4 with
              | ',' :: rest5 => jObjBody fuel acc rest5
              | '}' :: rest5 => .ok (acc, rest5)
              | _ => .error "Expecting ',' delimiter"
          | _ => .error "Expecting ':' delimiter"
      | _ => .error "Expecting property name"

/-- Model of Python `json.loads` on the modelled fragment: a single JSON
object of string keys with string or string-array values, allowing
surrounding whitespace, rejecting trailing garbage. -/
def jsonLoads (s : List Char) : Except String (List (String × JVal)) :=
  match jSkipWs s with
  | '{' :: cs => do
      let (obj, rest) ← jObjBody (s.length + 1) [] cs
      if (jSkipWs rest).isEmpty then .ok obj
      else .error "Extra data"
  | _ => .error "Expecting value"

/-- `QuestionGenerator._parse_response` (question_generator.py 403-447):
unwrap markdown code fences, locate the outermost `{...}` span when the
trimmed text does not start with `{`, then `json.loads` and require a
`question` key.  Exceptions are modelled as `Except.error`. -/
def parse_response (response_text : List Char) :
    Except String (List (String × JVal)) :=
  let json0 := trimC response_text
  let fenceJson := "```json".data
  let fence := "```".data
  let json1 :=
    if containsSub fenceJson json0 then
      trimC (splitSub fence (json0.length + 1)
        ((splitSub fenceJson (json0.length + 1) json0).getD 1 [])).headI
    else if containsSub fence json0 then
      match ((splitSub fence (json0.length + 1) json0).filter
          (fun part => (trimC part).headI = '{' && (trimC part) ≠ [])) with
      | [] => json0
      | part :: _ => trimC part
    else json0
  let json2 := trimC json1
  let json3 :=
    if json2.headI = '{' ∧ json2 ≠ [] then json2
    else
      match findCharIdx '{' json2, rfindCharIdx '}' json2 with
      | some start, some last =>
          if start < last + 1 then (json2.take (last + 1)).drop start
          else json2
      | _, _ => json2
  do
    let data ← jsonLoads json3
    if (lookupAssoc "question" data).isSome then .ok data
    else .error "Missing question field in response"

/-- `Question` construction at question_generator.py 176-189, from the
parsed response object.  A value of the wrong shape for a field (an array
where pydantic expects a string, or vice versa) raises a validation error
in Python; modelled as `Except.error`. -/
def buildQuestion (hex : String) (u : MUnit) (marks : Nat)
    (qt : QuestionType) (d : DifficultyLevel)
    (data : List (String × JVal)) : Except String Question := do
  let qtext ←
    match lookupAssoc "question" data with
    | some (.str s) => Except.ok s
    | some (.arrS _) => Except.error "validation error: question"
    | none => Except.ok ""
  let opts ←
    match lookupAssoc "options" data with
    | some (.arrS xs) => Except.ok (some xs)
    | some (.str _) => Except.error "validation error: options"
    | none => Except.ok none
  let getStr (k : String) (dflt : Option String) :
      Except String (Option String) :=
    match lookupAssoc k data with
    | some (.str s) => Except.ok (some s)
    | some (.arrS _) => Except.error "validation error"
    | none => Except.ok dflt
  let ca ← getStr "correct_answer" none
  let expl ← getStr "explanation" none
  let co ← getStr "course_outcome" (some "CO1")
  let bl ← getStr "blooms_level" (some "K1")
  Except.ok
    { id := "q_" ++ hex
      unit_id := u.id
      unit_name := u.title
      question_text := qtext
      marks := marks
      type := qt
      difficulty := d
      options := opts
      correct_answer := ca
      answer_explanation := expl
      course_outcome := co
      blooms_level := bl }

/-- `QuestionGenerator._create_fallback_question`
(question_generator.py 204-261).  The Python id is
`f"q_{uuid.uuid4().hex[:8]}"`; the fresh random hex digits are the
explicit `hex` parameter. -/
def create_fallback_question (hex : String) (u : MUnit) (marks : Nat)
    (qt : QuestionType) (d : DifficultyLevel) : Question :=
  let topics_str :=
    if u.topics ≠ [] then String.intercalate ", " (u.topics.take 3)
    else u.title
  let co := if marks = 1 then "CO1"
    else if marks ≤ 3 then "CO2"
    else if marks ≤ 5 then "CO3"
    else "CO4"
  let bl := if marks = 1 then "K1"
    else if marks ≤ 3 then "K2"
    else if marks ≤ 5 then "K3"
    else "K4"
  if qt = .multiple_choice then
    { id := "q_" ++ hex
      unit_id := u.id
      unit_name := u.title
      question_text := "Which of the following is related to " ++ u.title
        ++ "?"
      marks := marks
      type := qt
      difficulty := d
      options :=
        some ["A) " ++ (u.topics.headD "Option A"),
          "B) " ++ (if 1 < u.topics.length then u.topics.getD 1 ""
            else "Option B"),
          "C) None of the above",
          "D) All of the above"]
      correct_answer := some "A"
      answer_explanation := some "This is a fallback question due to API error."
      course_outcome := some co
      blooms_level := some bl }
  else
    { id := "q_" ++ hex
      unit_id := u.id
      unit_name := u.title
      question_text := "Explain the key concepts covered in " ++ u.title
        ++ ". Topics include: " ++ topics_str
      marks := marks
      type := qt
      difficulty := d
      options := none
      correct_answer := some ("Students should explain: " ++ topics_str)
      answer_explanation := some "This is a fallback question due to API error."
      course_outcome := some co
      blooms_level := some bl }

/-- The emptiness test `if not response or not response.text` at
question_generator.py 157: the external call yielded no text. -/
def respEmpty : Option String → Bool
  | none => true
  | some s => s.isEmpty

/-- The validation at question_generator.py 169:
`not question_data.get('question') or len(question_data.get('question',
'')) < 10`, where a falsy (empty) value or a length below 10 rejects the
parsed object.  `len` applies to either a string or an array. -/
def questionFieldInvalid (data : List (String × JVal)) : Bool :=
  match lookupAssoc "question" data with
  | none => true
  | some (.str s) => s.length < 10
  | some (.arrS xs) => xs.length < 10

/-- The retry loop of `QuestionGenerator._generate_single_question`
(question_generator.py 139-202) with `max_retries = 3`.  `gen` is the
external generation call (per attempt index, `none`/empty modelling a
blocked or empty response), `hexes` the stream of fresh uuid hex strings.
Returns the produced question together with the number of attempts made.
`remaining` is the number of loop iterations left (`3 - n`). -/
def genLoop (u : MUnit) (marks : Nat) (qt : QuestionType)
    (d : DifficultyLevel) (gen : Nat → Option String)
    (hexes : Nat → String) : Nat → Nat → Question × Nat
  | 0, n =>
      -- the `return` after the loop at line 202 ("shouldn't be reached")
      (create_fallback_question (hexes n) u marks qt d, n)
  | remaining + 1, n =>
      let resp := gen n
      if respEmpty resp then
        -- empty response: retry while attempts remain, else the raised
        -- ValueError is caught and the fallback returned (attempt == 2)
        if n < 2 then genLoop u marks qt d gen hexes remaining (n + 1)
        else (create_fallback_question (hexes n) u marks qt d, n + 1)
      else
        match parse_response ((resp.getD "").data) with
        | .error _ =>
            -- json/parse exception: caught; fallback on the last attempt
            if n = 2 then
              (create_fallback_question (hexes n) u marks qt d, n + 1)
            else genLoop u marks qt d gen hexes remaining (n + 1)
        | .ok data =>
            if questionFieldInvalid data then
              if n < 2 then genLoop u marks qt d gen hexes remaining (n + 1)
              else (create_fallback_question (hexes n) u marks qt d, n + 1)
            else
              match buildQuestion (hexes n) u marks qt d data with
              | .error _ =>
                  if n = 2 then
                    (create_fallback_question (hexes n) u marks qt d, n + 1)
                  else genLoop u marks qt d gen hexes remaining (n + 1)
              | .ok q => (q, n + 1)

/-- `QuestionGenerator._generate_single_question`
(question_generator.py 120-202): at most 3 attempts, then fallback. -/
def generate_single_question (u : MUnit) (marks : Nat) (qt : QuestionType)
    (d : DifficultyLevel) (gen : Nat → Option String)
    (hexes : Nat → String) : Question × Nat :=
  genLoop u marks qt d gen hexes 3 0

/-- A representative external response for C10: a JSON object whose
`question` value is a string of length at least 10 and which has no
`options` and no `correct_answer` keys. -/
def validFieldlessResponse : String :=
  "\x7b\"question\": \"What is the asymptotic running time of binary search?\"\x7d"

/-! # Syllabus parser (app/services/syllabus_parser.py)

Strings are `List Char`; each concrete regular expression of the source
is modelled by a dedicated matcher that reproduces Python `re`
backtracking semantics for that pattern. -/

/-- ASCII lower-casing, the ASCII fragment of Python `str.lower()`. -/
def toLowerC (c : Char) : Char :=
  if 'A' ≤ c ∧ c ≤ 'Z' then Char.ofNat (c.toNat + 32) else c

/-- Case-insensitive prefix test; `pat` is given in lower case. -/
def startsWithCI : List Char → List Char → Bool
  | [], _ => true
  | _ :: _, [] => false
  | p :: ps, c :: cs => p = toLowerC c && startsWithCI ps cs

/-- ASCII decimal digit (Python `\d`). -/
def isDigitC (c : Char) : Bool :=
  '0' ≤ c && c ≤ '9'

/-- Python `\w` (ASCII fragment): letters, digits, underscore. -/
def isWordC (c : Char) : Bool :=
  ('a' ≤ c && c ≤ 'z') || ('A' ≤ c && c ≤ 'Z') || isDigitC c || c = '_'

/-- Python `str.split('\n')`. -/
def splitNl : List Char → List (List Char)
  | [] => [[]]
  | c :: cs =>
      if c = '\n' then [] :: splitNl cs
      else
        match splitNl cs with
        | p :: ps => (c :: p) :: ps
        | [] => [[c]]

/-! ## Reference-section filter
(`SyllabusParser._should_skip_line`, syllabus_parser.py 39-50)

Each `skip_patterns` alternative is a sequence of case-insensitive
literals separated by whitespace gaps.  Because every gap is followed by
a literal starting with a non-whitespace character, maximal-munch
whitespace matching coincides with the regex backtracking semantics. -/

/-- One token of a filter alternative: a case-insensitive literal, `\s*`,
or `\s+`. -/
inductive SkipTok where
  | lit (w : List Char)
  | ws0
  | ws1
deriving Repr

/-- Match a token sequence against a prefix of `s`. -/
def matchToks : List SkipTok → List Char → Bool
  | [], _ => true
  | .lit w :: ts, s => startsWithCI w s && matchToks ts (s.drop w.length)
  | .ws0 :: ts, s => matchToks ts (s.dropWhile isSpaceC)
  | .ws1 :: ts, s =>
      match s with
      | c :: r => isSpaceC c && matchToks ts (r.dropWhile isSpaceC)
      | [] => false

/-- The alternatives of the three `skip_patterns` regexes:
`(?i)(text\s*book|reference|bibliography|suggested\s+reading)`,
`(?i)(edition|publisher|publication|pearson|mcgraw|wiley)`,
`(?i)(downloaded\s+from|enggtree\.com|copyright)`. -/
def skipAlternatives : List (List SkipTok) :=
  [[.lit "text".data, .ws0, .lit "book".data],
   [.lit "reference".data],
   [.lit "bibliography".data],
   [.lit "suggested".data, .ws1, .lit "reading".data],
   [.lit "edition".data],
   [.lit "publisher".data],
   [.lit "publication".data],
   [.lit "pearson".data],
   [.lit "mcgraw".data],
   [.lit "wiley".data],
   [.lit "downloaded".data, .ws1, .lit "from".data],
   [.lit "enggtree.com".data],
   [.lit "copyright".data]]

/-- Does any filter alternative match starting at this position? -/
def skipMatchHere (s : List Char) : Bool :=
  skipAlternatives.any (fun t => matchToks t s)

/-- `re.search` over all start positions. -/
def searchSkip : List Char → Bool
  | [] => false
  | c :: cs => skipMatchHere (c :: cs) || searchSkip cs

/-- `SyllabusParser._should_skip_line` (syllabus_parser.py 45-50). -/
def should_skip_line (s : List Char) : Bool :=
  searchSkip s

/-! ## Text normalizer
(`SyllabusParser._preprocess_pdf_text`, syllabus_parser.py 117-160) -/

/-- Generic `re.sub(pattern, repl, text)` scan: at each position try the
matcher; on a match of length `n ≥ 1` emit the replacement and resume
after the match, otherwise copy one character.  `fuel ≥ length` always
suffices. -/
def reSubGen (matchAt : List Char → Option Nat) (repl : List Char) :
    Nat → List Char → List Char
  | 0, s => s
  | _ + 1, [] => []
  | fuel + 1, c :: cs =>
      match matchAt (c :: cs) with
      | some n =>
          if n = 0 then c :: reSubGen matchAt repl fuel cs
          else repl ++ reSubGen matchAt repl fuel ((c :: cs).drop n)
      | none => c :: reSubGen matchAt repl fuel cs

/-- Matcher for `(?i)Downloaded from \w+\.com`: the literal
`downloaded from `, a maximal word-character run of length ≥ 1 (the run
must be followed directly by `.com`, since `.` is not a word character no
backtracking alternative exists), then `.com`. -/
def downloadedMatchAt (s : List Char) : Option Nat :=
  if startsWithCI "downloaded from ".data s then
    let t := s.drop 16
    let w := (t.takeWhile isWordC).length
    if w = 0 then none
    else if startsWithCI ".com".data (t.drop w) then some (16 + w + 4)
    else none
  else none

/-- Matcher for the case-insensitive literal `EnggTree\.com`. -/
def enggtreeMatchAt (s : List Char) : Option Nat :=
  if startsWithCI "enggtree.com".data s then some 12 else none

/-- Matcher for `\n\s*\d+\s*\n`: a newline, a maximal whitespace run, a
maximal digit run of length ≥ 1, then whitespace up to a final newline —
with backtracking the final newline is the last newline inside the
trailing whitespace run. -/
def pageNumMatchAt (s : List Char) : Option Nat :=
  match s with
  | [] => none
  | c :: t =>
      if c = '\n' then
        let a := (t.takeWhile isSpaceC).length
        let t1 := t.drop a
        let d := (t1.takeWhile isDigitC).length
        if d = 0 then none
        else
          let t2 := t1.drop d
          let w := t2.takeWhile isSpaceC
          match rfindCharIdx '\n' w with
          | some l => some (1 + a + d + l + 1)
          | none => none
      else none

/-- `text = re.sub(r'Downloaded from \w+\.com', '', text, flags=I)`. -/
def removeDownloaded (s : List Char) : List Char :=
  reSubGen downloadedMatchAt [] s.length s

/-- `text = re.sub(r'EnggTree\.com', '', text, flags=I)`. -/
def removeEnggtree (s : List Char) : List Char :=
  reSubGen enggtreeMatchAt [] s.length s

/-- `text = re.sub(r'\n\s*\d+\s*\n', '\n', text)`. -/
def removePageNums (s : List Char) : List Char :=
  reSubGen pageNumMatchAt ['\n'] s.length s

/-- `line.endswith(('.', ':', '–', '-', '—'))` at syllabus_parser.py 145. -/
def endsPunct (l : List Char) : Bool :=
  match l.getLast? with
  | some c => c = '.' || c = ':' || c = '–' || c = '-' || c = '—'
  | none => false

/-- `re.match(r'(?i)^(unit|chapter|module|\d+\.)', line)` at
syllabus_parser.py 146: one of three case-insensitive keyword prefixes,
or a maximal digit run of length ≥ 1 followed directly by `.` (no
backtracking alternative exists as `.` is not a digit). -/
def isSectionStart (l : List Char) : Bool :=
  startsWithCI "unit".data l || startsWithCI "chapter".data l ||
    startsWithCI "module".data l ||
    (let d := (l.takeWhile isDigitC).length
     decide (0 < d) &&
       (match l.drop d with
        | '.' :: _ => true
        | _ => false))

/-- The inner line-joining `while` of `_preprocess_pdf_text`
(syllabus_parser.py 144-150): absorb following lines into the current
line while it does not end in terminal punctuation and the next line is
not a section header; empty following lines are consumed without being
appended. -/
def absorbLines (c : List Char) :
    List (List Char) → List Char × List (List Char)
  | [] => (c, [])
  | nxt :: rest =>
      if endsPunct c then (c, nxt :: rest)
      else if isSectionStart (trimC nxt) then (c, nxt :: rest)
      else if (trimC nxt).isEmpty then absorbLines c rest
      else absorbLines (c ++ ' ' :: trimC nxt) rest

/-- The outer line loop of `_preprocess_pdf_text` (syllabus_parser.py
133-155): strip each line, keep blank lines as empty strings, merge
broken lines via `absorbLines`.  `fuel ≥ number of lines` suffices (each
step consumes at least the head line). -/
def fixLines : Nat → List (List Char) → List (List Char)
  | 0, _ => []
  | _ + 1, [] => []
  | fuel + 1, l :: rest =>
      let lt := trimC l
      if lt.isEmpty then [] :: fixLines fuel rest
      else
        match absorbLines lt rest with
        | (m, rest') => m :: fixLines fuel rest'

/-- `text = re.sub(r' +', ' ', text)` at syllabus_parser.py 158: collapse
runs of space characters to a single space. -/
def collapseSpaces : List Char → List Char
  | [] => []
  | [c] => [c]
  | c1 :: c2 :: rest =>
      if c1 = ' ' && c2 = ' ' then collapseSpaces (c2 :: rest)
      else c1 :: collapseSpaces (c2 :: rest)

/-- `SyllabusParser._preprocess_pdf_text` (syllabus_parser.py 117-160):
boilerplate removal, page-number deletion, broken-line merging, space
collapsing. -/
def preprocess_pdf_text (s : List Char) : List Char :=
  let t1 := removeDownloaded s
  let t2 := removeEnggtree t1
  let t3 := removePageNums t2
  let lines := splitNl t3
  let fixed := fixLines lines.length lines
  let t4 := List.intercalate ['\n'] fixed
  collapseSpaces t4

/-! ## Tier 1: line-anchored unit patterns
(`SyllabusParser.unit_patterns`, syllabus_parser.py 27-34, used by
`parse_text` 230-276)

Each matcher returns the title capture group (group 2) when the pattern
matches the line, reproducing the backtracking semantics of the concrete
regex.  Group 1 (the unit number) is computed by the source only for a
dead roman-numeral conversion (the resulting `unit_number` is never used:
ids and orders come from `unit_count`), so matchers return group 2
only. -/

/-- The class `[:\-–—]` used by the chapter/module/roman patterns. -/
def isColonDash (c : Char) : Bool :=
  c = ':' || c = '-' || c = '–' || c = '—'

/-- Roman-numeral class `[IVX]` under `(?i)`. -/
def isRomanCI (c : Char) : Bool :=
  c = 'I' || c = 'V' || c = 'X' || c = 'i' || c = 'v' || c = 'x'

/-- The tail `\s*(.+)` of a pattern after a forced literal, under regex
backtracking: greedy `\s*` takes the maximal whitespace run provided at
least one character remains for `(.+)`; when the remainder is pure
whitespace the group degenerates to the final character.  `none` when
the remainder is empty. -/
def restGroup (u : List Char) : Option (List Char) :=
  match u with
  | [] => none
  | _ =>
      let v := u.dropWhile isSpaceC
      if v.isEmpty then some [u.getLastD ' '] else some v

/-- The tail `\s*[:\-–—]?\s*(.+)` under regex backtracking: skip
whitespace, an optional separator, whitespace again; if nothing remains
for `(.+)`, backtracking releases exactly the final consumed character.
`none` when the remainder is empty. -/
def clsGroup (u : List Char) : Option (List Char) :=
  match u with
  | [] => none
  | _ =>
      let u1 := u.dropWhile isSpaceC
      let u2 :=
        match u1 with
        | c :: r => if isColonDash c then r else u1
        | [] => u1
      let u3 := u2.dropWhile isSpaceC
      if u3.isEmpty then some [u.getLastD ' '] else some u3

/-- Pattern 1, `(?i)^unit\s+(\d+)\s*:\s*(.+)`.  The digit run and the
whitespace runs are forced maximal (no backtracking alternative exists
because `\s`, `\d` and `:` are pairwise disjoint). -/
def matchUnitColon (l : List Char) : Option (List Char) :=
  if startsWithCI "unit".data l then
    let t := l.drop 4
    let a := (t.takeWhile isSpaceC).length
    if a = 0 then none
    else
      let t1 := t.drop a
      let d := (t1.takeWhile isDigitC).length
      if d = 0 then none
      else
        let t2 := t1.drop d
        match t2.dropWhile isSpaceC with
        | ':' :: t4 => restGroup t4
        | _ => none
  else none

/-- Pattern 2, `(?i)^unit\s+(\d+)\s+(.+)`: after the digits at least one
whitespace character; if only whitespace remains, backtracking leaves the
final whitespace character to `(.+)` provided the run has length ≥ 2. -/
def matchUnitSpace (l : List Char) : Option (List Char) :=
  if startsWithCI "unit".data l then
    let t := l.drop 4
    let a := (t.takeWhile isSpaceC).length
    if a = 0 then none
    else
      let t1 := t.drop a
      let d := (t1.takeWhile isDigitC).length
      if d = 0 then none
      else
        let t2 := t1.drop d
        let b := (t2.takeWhile isSpaceC).length
        if b = 0 then none
        else
          let t3 := t2.drop b
          if t3.isEmpty then
            if 2 ≤ b then some [t2.getD (b - 1) ' '] else none
          else some t3
  else none

/-- Patterns 3 and 4, `(?i)^chapter\s+(\d+)\s*[:\-–—]?\s*(.+)` and the
`module` variant.  When nothing follows the digit run, `(\d+)` itself
backtracks and releases its final digit to `(.+)` (possible only when the
run has length ≥ 2). -/
def matchKwNum (kw : List Char) (l : List Char) : Option (List Char) :=
  if startsWithCI kw l then
    let t := l.drop kw.length
    let a := (t.takeWhile isSpaceC).length
    if a = 0 then none
    else
      let t1 := t.drop a
      let d := (t1.takeWhile isDigitC).length
      if d = 0 then none
      else
        match clsGroup (t1.drop d) with
        | some g => some g
        | none => if 2 ≤ d then some [t1.getD (d - 1) ' '] else none
  else none

/-- Pattern 5, `(?i)^(\d+)\.\s*(.+)`: a maximal digit run from the start
of the line followed directly by `.` (no backtracking alternative). -/
def matchNumberDot (l : List Char) : Option (List Char) :=
  let d := (l.takeWhile isDigitC).length
  if d = 0 then none
  else
    match l.drop d with
    | '.' :: u => restGroup u
    | _ => none

/-- Pattern 6, `(?i)^unit\s+([IVX]+)\s*[:\-–—]?\s*(.+)`, the roman
variant of `matchKwNum` ( `(?i)` makes the class match lower case as
well). -/
def matchUnitRoman (l : List Char) : Option (List Char) :=
  if startsWithCI "unit".data l then
    let t := l.drop 4
    let a := (t.takeWhile isSpaceC).length
    if a = 0 then none
    else
      let t1 := t.drop a
      let r := (t1.takeWhile isRomanCI).length
      if r = 0 then none
      else
        match clsGroup (t1.drop r) with
        | some g => some g
        | none => if 2 ≤ r then some [t1.getD (r - 1) ' '] else none
  else none

/-- `self.unit_patterns` in priority order (syllabus_parser.py 27-34). -/
def unitPatterns : List (List Char → Option (List Char)) :=
  [matchUnitColon, matchUnitSpace, matchKwNum "chapter".data,
   matchKwNum "module".data, matchNumberDot, matchUnitRoman]

/-- `re.sub(r'[:\.\-–—]+$', '', unit_title)` at syllabus_parser.py 261:
remove the maximal trailing run of title punctuation. -/
def stripTrailingPunct (t : List Char) : List Char :=
  (t.reverse.dropWhile
    (fun c => c = ':' || c = '.' || c = '-' || c = '–' || c = '—')).reverse

/-- `re.sub(r'^[\-\*\•\d\.]+\s*', '', line)` at syllabus_parser.py 281
and 352: strip one leading run of bullet/numbering characters together
with following whitespace (the pattern is anchored, so at most one
substitution happens). -/
def bulletChar (c : Char) : Bool :=
  c = '-' || c = '*' || c = '•' || c = '.' || isDigitC c

/-- See `bulletChar`. -/
def bulletStrip (l : List Char) : List Char :=
  match l with
  | [] => []
  | c :: _ =>
      if bulletChar c then (l.dropWhile bulletChar).dropWhile isSpaceC
      else l

/-- Whole-string alternatives of the topic-filler filter
`(?i)^(topics?|syllabus|course|objectives?|unit\s+[IVX]+):?$`
(syllabus_parser.py 290), without the optional trailing colon. -/
def fillerCore (u : List Char) : Bool :=
  u.map toLowerC = "topic".data || u.map toLowerC = "topics".data ||
    u.map toLowerC = "syllabus".data || u.map toLowerC = "course".data ||
    u.map toLowerC = "objective".data ||
    u.map toLowerC = "objectives".data ||
    (startsWithCI "unit".data u &&
      (let t := u.drop 4
       let a := (t.takeWhile isSpaceC).length
       let t1 := t.drop a
       let r := (t1.takeWhile isRomanCI).length
       decide (0 < a) && decide (0 < r) && (t1.drop r).isEmpty))

/-- The full filler filter, allowing one optional trailing `:`. -/
def isFiller (t : List Char) : Bool :=
  fillerCore t ||
    (match t.getLast? with
     | some ':' => fillerCore t.dropLast
     | _ => false)

/-! ## Tier 1: the parse loop
(`SyllabusParser.parse_text`, syllabus_parser.py 216-298)

The Python loop mutates shared objects: `units.append(current_unit)`
stores a reference, and `current_unit.topics = current_topics` aliases
the live topic list, so topics appended after a save still reach the
saved unit, and a later save of the same `current_unit` appends the same
object again.  The embedding models this with a store `done` of finalized
units (indexed by creation order), reference list `saved`, and the live
`cur`/`curTopics`; `cur`'s eventual store index is `done.length`. -/

structure T1State where
  done      : List (List Char × Nat × List (List Char))
  saved     : List Nat
  cur       : Option (List Char × Nat)
  curTopics : List (List Char)
  count     : Nat

/-- Initial `parse_text` state: no units, `current_unit = None`,
`current_topics = []`, `unit_count = 0`. -/
def t1Init : T1State := ⟨[], [], none, [], 0⟩

/-- The `for pattern in self.unit_patterns` loop body (syllabus_parser.py
232-276) with its side effects: a matching pattern whose raw title passes
the reference filter saves the previous unit (when it has topics) and
increments `unit_count` even if the cleaned title then turns out shorter
than 3 characters and the pattern is abandoned for the next one. -/
def t1TryPats : List (List Char → Option (List Char)) → T1State →
    List Char → T1State × Bool
  | [], st, _ => (st, false)
  | p :: ps, st, line =>
      match p line with
      | none => t1TryPats ps st line
      | some g2 =>
          let title := trimC g2
          if should_skip_line title then t1TryPats ps st line
          else
            let saved1 :=
              if st.cur.isSome ∧ st.curTopics ≠ [] then
                st.saved ++ [st.done.length]
              else st.saved
            let count1 := st.count + 1
            let title2 := trimC (stripTrailingPunct title)
            if title2.length < 3 then
              t1TryPats ps
                ⟨st.done, saved1, st.cur, st.curTopics, count1⟩ line
            else
              (⟨st.done ++
                  (match st.cur with
                   | some (t, o) => [(t, o, st.curTopics)]
                   | none => []),
                saved1, some (title2, count1), [], count1⟩, true)

/-- One iteration of the line loop of `parse_text` (syllabus_parser.py
220-292): strip, drop short and reference lines, try the unit patterns,
otherwise treat the line as a topic of the current unit. -/
def t1Line (st : T1State) (rawLine : List Char) : T1State :=
  let line := trimC rawLine
  if line.isEmpty ∨ line.length < 3 then st
  else if should_skip_line line then st
  else
    match t1TryPats unitPatterns st line with
    | (st', true) => st'
    | (st', false) =>
        match st'.cur with
        | none => st'
        | some _ =>
            let topic := trimC (bulletStrip line)
            if should_skip_line topic then st'
            else if ¬ topic.isEmpty ∧ 5 < topic.length ∧ ¬ isFiller topic
            then { st' with curTopics := st'.curTopics ++ [topic] }
            else st'

/-- The post-loop save of the final unit (syllabus_parser.py 295-298):
`current_unit`, when present, is always appended (even if it was already
saved or has no topics), with the fully accumulated topic list. -/
def t1Finish (st : T1State) :
    List (List Char × Nat × List (List Char)) × List Nat :=
  match st.cur with
  | none => (st.done, st.saved)
  | some (t, o) =>
      (st.done ++ [(t, o, st.curTopics)], st.saved ++ [st.done.length])

/-- Materialize the reference list into `Unit` records:
`Unit(id=f"unit_{unit_count}", title=..., topics=..., order=unit_count)`
(syllabus_parser.py 267-272). -/
def t1Materialize
    (dn : List (List Char × Nat × List (List Char)) × List Nat) :
    List MUnit :=
  dn.2.map (fun j =>
    let e := dn.1.getD j ([], 0, [])
    { id := "unit_" ++ toString e.2.1, title := String.mk e.1,
      topics := e.2.2.map String.mk, order := e.2.1 })

/-- The Tier-1 line-anchored pass of `parse_text` over preprocessed
content (syllabus_parser.py 214-298). -/
def t1Units (content : List Char) : List MUnit :=
  t1Materialize (t1Finish ((splitNl content).foldl t1Line t1Init))

/-! ## Tier 2: inline extraction
(`SyllabusParser._extract_units_from_inline_text`, syllabus_parser.py
52-115), driven by `inline_unit_pattern =
r'UNIT\s+([IVX]+)\s+([A-Z\s&,]+?)\s+\d+'` (case-sensitive).

Backtracking order of the regex engine: the greedy `[IVX]+` tries longest
runs first, the greedy middle `\s+` longest first, the lazy title
`[A-Z\s&,]+?` shortest first; the final `\s+\d+` is forced (a shorter
whitespace run would put a whitespace character where a digit is
required). -/

/-- The title class `[A-Z\s&,]`. -/
def isInlineTitleChar (c : Char) : Bool :=
  ('A' ≤ c && c ≤ 'Z') || isSpaceC c || c = '&' || c = ','

/-- The forced tail `\s+\d+`: a maximal whitespace run of length ≥ 1
then a maximal digit run of length ≥ 1; returns the consumed length. -/
def inlineTailLen (u : List Char) : Option Nat :=
  let w := (u.takeWhile isSpaceC).length
  if w = 0 then none
  else
    let d := ((u.drop w).takeWhile isDigitC).length
    if d = 0 then none else some (w + d)

/-- Lazy title search: try lengths `t, t+1, ...` while they stay within
the maximal title-class run, accepting the first whose remainder matches
`\s+\d+`.  Returns `(t, tail length)`.  `fuel` bounds the remaining
candidates. -/
def inlineTitleGo (u2 : List Char) (tmax : Nat) :
    Nat → Nat → Option (Nat × Nat)
  | 0, _ => none
  | fuel + 1, t =>
      if tmax < t then none
      else
        match inlineTailLen (u2.drop t) with
        | some l => some (t, l)
        | none => inlineTitleGo u2 tmax fuel (t + 1)

/-- Greedy middle `\s+` search, longest first: the argument is the
whitespace-run length currently tried. -/
def inlineW2Go (afterR : List Char) : Nat → Option (Nat × Nat × Nat)
  | 0 => none
  | w2 + 1 =>
      let u2 := afterR.drop (w2 + 1)
      let tmax := (u2.takeWhile isInlineTitleChar).length
      match inlineTitleGo u2 tmax tmax 1 with
      | some (t, l) => some (w2 + 1, t, l)
      | none => inlineW2Go afterR w2

/-- Greedy `[IVX]+` search, longest first. -/
def inlineRomanGo (t1 : List Char) : Nat → Option (Nat × Nat × Nat × Nat)
  | 0 => none
  | r + 1 =>
      let afterR := t1.drop (r + 1)
      let w2max := (afterR.takeWhile isSpaceC).length
      match inlineW2Go afterR w2max with
      | some (w2, t, l) => some (r + 1, w2, t, l)
      | none => inlineRomanGo t1 r

/-- Try the inline pattern at the start of `s`; on success return
(group 1, group 2, total match length). -/
def inlineMatchAt (s : List Char) : Option (List Char × List Char × Nat) :=
  if isPrefC "UNIT".data s then
    let t := s.drop 4
    let w1 := (t.takeWhile isSpaceC).length
    if w1 = 0 then none
    else
      let t1 := t.drop w1
      let rmax := (t1.takeWhile
        (fun c => c = 'I' || c = 'V' || c = 'X')).length
      match inlineRomanGo t1 rmax with
      | some (r, w2, tt, l) =>
          some (t1.take r, ((t1.drop r).drop w2).take tt,
            4 + w1 + r + w2 + tt + l)
      | none => none
  else none

/-- `re.finditer` scan: left to right, non-overlapping; records
(start position, group 1, group 2, match length). -/
def inlineFindGo :
    Nat → Nat → List Char → List (Nat × List Char × List Char × Nat)
  | 0, _, _ => []
  | fuel + 1, pos, s =>
      match inlineMatchAt s with
      | some (g1, g2, len) =>
          (pos, g1, g2, len) :: inlineFindGo fuel (pos + len) (s.drop len)
      | none =>
          match s with
          | [] => []
          | _ :: cs => inlineFindGo fuel (pos + 1) cs

/-- The `roman_map` of syllabus_parser.py 72-73. -/
def romanVal (s : String) : Option Nat :=
  if s = "I" then some 1 else if s = "II" then some 2
  else if s = "III" then some 3 else if s = "IV" then some 4
  else if s = "V" then some 5 else if s = "VI" then some 6
  else if s = "VII" then some 7 else if s = "VIII" then some 8
  else if s = "IX" then some 9 else if s = "X" then some 10
  else none

/-- `re.sub(r'\s+', ' ', part)` at syllabus_parser.py 92: every
whitespace run becomes a single space. -/
def collapseAllWs : List Char → List Char
  | [] => []
  | [c] => if isSpaceC c then [' '] else [c]
  | c1 :: c2 :: rest =>
      if isSpaceC c1 && isSpaceC c2 then collapseAllWs (c2 :: rest)
      else (if isSpaceC c1 then ' ' else c1) :: collapseAllWs (c2 :: rest)

/-- `re.sub(r'^\d+\s*', '', part)` at syllabus_parser.py 93. -/
def stripLeadingDigits (p : List Char) : List Char :=
  match p with
  | [] => []
  | c :: _ =>
      if isDigitC c then (p.dropWhile isDigitC).dropWhile isSpaceC else p

/-- `re.split(r'\s*[–—]\s*', unit_content)` at syllabus_parser.py 86:
split on a dash with surrounding whitespace absorbed into the
delimiter. -/
def splitDashGo : Nat → List Char → List Char → List (List Char)
  | 0, acc, s => [acc.reverse ++ s]
  | _ + 1, acc, [] => [acc.reverse]
  | fuel + 1, acc, c :: cs =>
      let w := ((c :: cs).takeWhile isSpaceC).length
      match (c :: cs).drop w with
      | d :: rest =>
          if d = '–' ∨ d = '—' then
            let a := (rest.takeWhile isSpaceC).length
            acc.reverse :: splitDashGo fuel [] (rest.drop a)
          else splitDashGo fuel (c :: acc) cs
      | [] => splitDashGo fuel (c :: acc) cs

/-- Case-insensitive de-duplication preserving first-seen order
(syllabus_parser.py 97-103). -/
def dedupCI : List (List Char) → List (List Char) → List (List Char)
  | [], _ => []
  | t :: ts, seen =>
      let k := t.map toLowerC
      if seen.contains k then dedupCI ts seen
      else t :: dedupCI ts (k :: seen)

/-- Topic extraction from one inline unit body (syllabus_parser.py
83-103): split on dashes, keep trimmed fragments longer than 10 that the
filter accepts, collapse whitespace, strip leading numbering, cap at 200
characters, de-duplicate case-insensitively. -/
def inlineTopics (body : List Char) : List (List Char) :=
  let parts := splitDashGo (body.length + 1) [] body
  let topics := parts.filterMap (fun part =>
    let part := trimC part
    if 10 < part.length ∧ ¬ should_skip_line part then
      let p2 := stripLeadingDigits (collapseAllWs part)
      if p2.isEmpty then none else some (p2.take 200)
    else none)
  dedupCI topics []

/-- Build the inline units from the recorded matches (syllabus_parser.py
67-113); `i` is the 0-based match index (used as the fallback unit
number), the unit body runs to the next match start or the end of the
content. -/
def inlineBuild (content : List Char) :
    List (Nat × List Char × List Char × Nat) → Nat → List MUnit
  | [], _ => []
  | (pos, g1, g2, len) :: rest, i =>
      let title := trimC g2
      let n := (romanVal (String.mk g1)).getD (i + 1)
      let startP := pos + len
      let endP :=
        match rest with
        | (p2, _, _, _) :: _ => p2
        | [] => content.length
      let body := trimC ((content.take endP).drop startP)
      let uniq := inlineTopics body
      if ¬ uniq.isEmpty then
        { id := "unit_" ++ toString n, title := String.mk title,
          topics := (uniq.take 15).map String.mk, order := n } ::
          inlineBuild content rest (i + 1)
      else inlineBuild content rest (i + 1)

/-- `SyllabusParser._extract_units_from_inline_text`
(syllabus_parser.py 52-115): requires at least 2 inline matches. -/
def extract_units_from_inline_text (content : List Char) : List MUnit :=
  let ms := inlineFindGo (content.length + 1) 0 content
  if ms.length < 2 then [] else inlineBuild content ms 0

/-! ## Tier 3: smart fallback split
(`SyllabusParser._smart_parse_without_units`, syllabus_parser.py
333-382) -/

/-- Matcher for the section splitter `re.split(r'\n\s*\n', content)`: a
newline, then whitespace up to a final newline (with backtracking, the
last newline of the whitespace run). -/
def blankMatchAt (s : List Char) : Option Nat :=
  match s with
  | '\n' :: t =>
      let w := t.takeWhile isSpaceC
      match rfindCharIdx '\n' w with
      | some l => some (1 + l + 1)
      | none => none
  | _ => none

/-- The section split itself. -/
def splitBlankGo : Nat → List Char → List Char → List (List Char)
  | 0, acc, s => [acc.reverse ++ s]
  | _ + 1, acc, [] => [acc.reverse]
  | fuel + 1, acc, c :: cs =>
      match blankMatchAt (c :: cs) with
      | some n => acc.reverse :: splitBlankGo fuel [] ((c :: cs).drop n)
      | none => splitBlankGo fuel (c :: acc) cs

/-- `f"Section {i}"`. -/
def sectionTitle (i : Nat) : List Char :=
  "Section ".data ++ (toString i).data

/-- The per-section loop of `_smart_parse_without_units`
(syllabus_parser.py 341-367); `i` is the 1-based section number
(skipped sections still advance it). -/
def smartSections : List (List Char) → Nat → List MUnit
  | [], _ => []
  | sec :: rest, i =>
      let sec := trimC sec
      if sec.isEmpty ∨ sec.length < 10 then smartSections rest (i + 1)
      else
        let lines := ((splitNl sec).map trimC).filter (fun l => ¬ l.isEmpty)
        match lines with
        | [] => smartSections rest (i + 1)
        | l0 :: lrest =>
            let title := if l0.length < 100 then l0 else sectionTitle i
            let topics := lrest.filterMap (fun l =>
              if 3 < l.length then some (trimC (bulletStrip l)) else none)
            let tt :=
              if topics.isEmpty ∧ 1 < lines.length then
                (sectionTitle i, lines.filterMap (fun l =>
                  if 3 < l.length then some (trimC (bulletStrip l))
                  else none))
              else (title, topics)
            if ¬ tt.2.isEmpty then
              { id := "unit_" ++ toString i, title := String.mk (tt.1.take 100),
                topics := (tt.2.take 20).map String.mk, order := i } ::
                smartSections rest (i + 1)
            else smartSections rest (i + 1)

/-- `all_lines` of the last resort (syllabus_parser.py 371-372):
stripped lines that are non-empty and longer than 3 characters. -/
def lastResortLines (content : List Char) : List (List Char) :=
  ((splitNl content).map trimC).filter
    (fun l => ¬ l.isEmpty ∧ 3 < l.length)

/-- The last resort of `_smart_parse_without_units` (syllabus_parser.py
369-379): one unit from all non-trivial lines. -/
def lastResort (content : List Char) : List MUnit :=
  let allL := lastResortLines content
  match allL with
  | [] => []
  | first :: _ =>
      [{ id := "unit_1",
         title := String.mk
           (if first.isEmpty then "Course Content".data
            else first.take 100),
         topics := ((if 1 < allL.length then (allL.drop 1).take 20
           else allL.take 20).map String.mk),
         order := 1 }]

/-- `SyllabusParser._smart_parse_without_units`
(syllabus_parser.py 333-382). -/
def smart_parse_without_units (content : List Char) : List MUnit :=
  let sections := splitBlankGo (content.length + 1) [] content
  let units := smartSections sections 1
  if ¬ units.isEmpty then units else lastResort content

/-! ## `parse_text` assembly (syllabus_parser.py 194-331) -/

/-- The reference filter lifted to entity titles. -/
def shouldSkipStr (s : String) : Bool :=
  should_skip_line s.data

/-- The post-filter and escalation of `parse_text` (syllabus_parser.py
310-321): drop units with no topics or reference-like titles; if fewer
than 2 units survive, retry inline extraction (kept only when strictly
larger), else — when nothing survived — reparse with Tier 3. -/
def parseFilterEscalate (content : List Char) (units2 : List MUnit) :
    List MUnit :=
  let units3 := units2.filter
    (fun u => ¬ u.topics.isEmpty ∧ ¬ shouldSkipStr u.title)
  if units3.length < 2 then
    let inl := extract_units_from_inline_text content
    if units3.length < inl.length then inl
    else if units3.isEmpty then smart_parse_without_units content
    else units3
  else units3

/-- `SyllabusParser.parse_text` on the character level: preprocess, run
Tier 1, fall back to Tier 2 then Tier 3 when a tier yields nothing, drop
units with no topics or reference-like titles, escalate again when fewer
than 2 units survive (syllabus_parser.py 204-327). -/
def parse_textL (raw : List Char) : List MUnit :=
  let content := preprocess_pdf_text raw
  let units0 := t1Units content
  let units1 :=
    if units0.isEmpty then extract_units_from_inline_text content
    else units0
  let units2 :=
    if units1.isEmpty then smart_parse_without_units content else units1
  parseFilterEscalate content units2

/-- `SyllabusParser.parse_text` (syllabus_parser.py 194-331). -/
def parse_text (raw : String) : List MUnit :=
  parse_textL raw.data

/-- The Tier-1 reference-filter invariant: every finalized unit's title
and topics, the current unit's title, and every accumulated topic pass
the reference filter. -/
def t1SkipInv (st : T1State) : Prop :=
  (∀ e ∈ st.done, should_skip_line e.1 = false ∧
    ∀ tp ∈ e.2.2, should_skip_line tp = false) ∧
  (∀ t o, st.cur = some (t, o) → should_skip_line t = false) ∧
  (∀ tp ∈ st.curTopics, should_skip_line tp = false)

/-! THEOREMS-BELOW -/

/-! ## Association list lemmas -/

theorem lookup_upd_self {κ α : Type} [DecidableEq κ] (k : κ) (v : α)
    (l : List (κ × α)) : lookupAssoc k (updAssoc k v l) = some v := by
  induction l with
  | nil => simp [updAssoc, lookupAssoc]
  | cons hd tl ih =>
      obtain ⟨k', v'⟩ := hd
      by_cases h : k' = k <;> simp [updAssoc, lookupAssoc, h, ih]

theorem lookup_upd_other {κ α : Type} [DecidableEq κ] {k k' : κ} (v : α)
    (l : List (κ × α)) (hne : k' ≠ k) :
    lookupAssoc k' (updAssoc k v l) = lookupAssoc k' l := by
  induction l with
  | nil => simp [updAssoc, lookupAssoc, Ne.symm hne]
  | cons hd tl ih =>
      obtain ⟨k₀, v₀⟩ := hd
      by_cases h : k₀ = k
      · subst h
        simp [updAssoc, lookupAssoc, Ne.symm hne]
      · by_cases h' : k₀ = k' <;> simp [updAssoc, lookupAssoc, h, h', hne, ih]

/-! ## Frame and write lemmas for the distribution planner -/

theorem countFor_step_other_uid {qt : QuestionType} {m : Nat}
    {df : DifficultyLevel} {b r i : Nat} {u : MUnit} {dist : Distribution}
    {uid : String} {qt' : QuestionType} (h : u.id ≠ uid) :
    countFor (distUnitStep qt m df b r i u dist) uid qt' =
      countFor dist uid qt' := by
  unfold distUnitStep countFor
  cases hl : lookupAssoc u.id dist with
  | none =>
      simp only [hl]
      by_cases hc : 0 < b + (if i < r then 1 else 0) <;>
        simp [hc, lookup_upd_other _ _ (Ne.symm h)]
  | some inner =>
      simp only [hl]
      by_cases hc : 0 < b + (if i < r then 1 else 0) <;>
        simp [hc, lookup_upd_other _ _ (Ne.symm h)]

theorem countFor_step_other_qt {qt : QuestionType} {m : Nat}
    {df : DifficultyLevel} {b r i : Nat} {u : MUnit} {dist : Distribution}
    {uid : String} {qt' : QuestionType} (h : qt' ≠ qt) :
    countFor (distUnitStep qt m df b r i u dist) uid qt' =
      countFor dist uid qt' := by
  by_cases huid : u.id = uid
  · subst huid
    unfold distUnitStep countFor
    cases hl : lookupAssoc u.id dist with
    | none =>
        by_cases hc : 0 < b + (if i < r then 1 else 0) <;>
          simp [hl, hc, lookup_upd_self, lookup_upd_other _ _ h, lookupAssoc,
            Ne.symm h]
    | some inner =>
        by_cases hc : 0 < b + (if i < r then 1 else 0) <;>
          simp [hl, hc, lookup_upd_self, lookup_upd_other _ _ h, Ne.symm h]
  · exact countFor_step_other_uid huid

theorem countFor_unitsGo_other_qt {qt : QuestionType} {m : Nat}
    {df : DifficultyLevel} {b r : Nat} {uid : String} {qt' : QuestionType}
    (h : qt' ≠ qt) :
    ∀ (us : List MUnit) (k : Nat) (dist : Distribution),
      countFor (distUnitsGo qt m df b r k us dist) uid qt' =
        countFor dist uid qt'
  | [], _, _ => rfl
  | u :: us, k, dist => by
      rw [distUnitsGo, countFor_unitsGo_other_qt h us (k + 1) _,
        countFor_step_other_qt h]

theorem countFor_unitsGo_notmem {qt : QuestionType} {m : Nat}
    {df : DifficultyLevel} {b r : Nat} {uid : String} {qt' : QuestionType} :
    ∀ (us : List MUnit) (k : Nat) (dist : Distribution),
      uid ∉ us.map MUnit.id →
      countFor (distUnitsGo qt m df b r k us dist) uid qt' =
        countFor dist uid qt'
  | [], _, _, _ => rfl
  | u :: us, k, dist, hmem => by
      simp only [List.map_cons, List.mem_cons, not_or] at hmem
      rw [distUnitsGo, countFor_unitsGo_notmem us (k + 1) _ hmem.2,
        countFor_step_other_uid (fun h => hmem.1 h.symm)]

theorem countFor_step_self {qt : QuestionType} {m : Nat}
    {df : DifficultyLevel} {b r i : Nat} {u : MUnit} {dist : Distribution} :
    countFor (distUnitStep qt m df b r i u dist) u.id qt =
      (if 0 < b + (if i < r then 1 else 0) then
        b + (if i < r then 1 else 0)
      else countFor dist u.id qt) := by
  unfold distUnitStep countFor
  cases hl : lookupAssoc u.id dist with
  | none =>
      by_cases hc : 0 < b + (if i < r then 1 else 0) <;>
        simp [hl, hc, lookup_upd_self, lookupAssoc]
  | some inner =>
      by_cases hc : 0 < b + (if i < r then 1 else 0) <;>
        simp [hl, hc, lookup_upd_self]

theorem countFor_unitsGo_get {qt : QuestionType} {m : Nat}
    {df : DifficultyLevel} {b r : Nat} :
    ∀ (us : List MUnit) (k : Nat) (dist : Distribution)
      (hnd : (us.map MUnit.id).Nodup) (i : Nat) (hi : i < us.length),
      countFor (distUnitsGo qt m df b r k us dist) (us.get ⟨i, hi⟩).id qt =
        (if 0 < b + (if k + i < r then 1 else 0) then
          b + (if k + i < r then 1 else 0)
        else countFor dist (us.get ⟨i, hi⟩).id qt)
  | [], _, _, _, i, hi => absurd hi (by simp)
  | u :: us, k, dist, hnd, 0, hi => by
      simp only [List.map_cons, List.nodup_cons] at hnd
      rw [distUnitsGo]
      simp only [List.get]
      rw [countFor_unitsGo_notmem us (k + 1) _ hnd.1, countFor_step_self,
        Nat.add_zero]
  | u :: us, k, dist, hnd, i + 1, hi => by
      simp only [List.map_cons, List.nodup_cons] at hnd
      rw [distUnitsGo]
      simp only [List.get]
      have hi' : i < us.length := by
        simpa using Nat.lt_of_succ_lt_succ hi
      rw [countFor_unitsGo_get us (k + 1) _ hnd.2 i hi']
      have : (us.get ⟨i, hi'⟩).id ∈ us.map MUnit.id :=
        List.mem_map_of_mem _ (us.get_mem _ _)
      rw [countFor_step_other_uid (fun h => hnd.1 (h ▸ this))]
      ring_nf

theorem countFor_reqStep_other {units : List MUnit}
    {req : QuestionTypeConfig} {dist : Distribution} {uid : String}
    {qt' : QuestionType} (h : qt' ≠ req.type) :
    countFor (distReqStep units req dist) uid qt' =
      countFor dist uid qt' := by
  unfold distReqStep
  exact countFor_unitsGo_other_qt h units 0 dist

theorem countFor_reqsGo_notmem {units : List MUnit} {uid : String}
    {qt : QuestionType} (hU : units.length ≠ 0) :
    ∀ (reqs : List QuestionTypeConfig) (dist : Distribution),
      qt ∉ reqs.map QuestionTypeConfig.type →
      ∃ d, distReqsGo units reqs dist = .ok d ∧
        countFor d uid qt = countFor dist uid qt
  | [], dist, _ => ⟨dist, rfl, rfl⟩
  | r :: rs, dist, hmem => by
      simp only [List.map_cons, List.mem_cons, not_or] at hmem
      rw [distReqsGo, if_neg hU]
      obtain ⟨d, hd, hc⟩ :=
        countFor_reqsGo_notmem hU rs (distReqStep units r dist) hmem.2
      exact ⟨d, hd, by rw [hc, countFor_reqStep_other hmem.1]⟩

theorem countFor_reqsGo_mem {units : List MUnit}
    (hU : units.length ≠ 0) (hids : (units.map MUnit.id).Nodup)
    {req : QuestionTypeConfig} {i : Nat} (hi : i < units.length) :
    ∀ (reqs : List QuestionTypeConfig) (dist : Distribution),
      (reqs.map QuestionTypeConfig.type).Nodup → req ∈ reqs →
      countFor dist (units.get ⟨i, hi⟩).id req.type = 0 →
      ∃ d, distReqsGo units reqs dist = .ok d ∧
        countFor d (units.get ⟨i, hi⟩).id req.type =
          req.count / units.length +
            (if i < req.count % units.length then 1 else 0)
  | [], _, _, hmem, _ => absurd hmem (by simp)
  | r :: rs, dist, hnd, hmem, h0 => by
      simp only [List.map_cons, List.nodup_cons] at hnd
      rw [distReqsGo, if_neg hU]
      rcases List.mem_cons.mp hmem with heq | hmem'
      · subst heq
        have hw :
            countFor (distReqStep units req dist)
              (units.get ⟨i, hi⟩).id req.type =
            req.count / units.length +
              (if i < req.count % units.length then 1 else 0) := by
          unfold distReqStep
          rw [countFor_unitsGo_get units 0 dist hids i hi, h0]
          simp only [Nat.zero_add]
          rcases Nat.lt_or_ge i (req.count % units.length) with hrim | hrim
          · rw [if_pos hrim, if_pos (Nat.succ_pos _)]
          · rw [if_neg (Nat.not_lt.mpr hrim)]
            simp only [Nat.add_zero]
            rcases Nat.eq_zero_or_pos (req.count / units.length)
              with hb | hb
            · rw [hb, if_neg (lt_irrefl 0)]
            · rw [if_pos hb]
        obtain ⟨d, hd, hc⟩ :=
          countFor_reqsGo_notmem hU rs (distReqStep units req dist) hnd.1
        exact ⟨d, hd, by rw [hc, hw]⟩
      · have hty : req.type ≠ r.type := by
          intro h
          exact hnd.1 (h ▸ List.mem_map_of_mem _ hmem')
        have h0' :
            countFor (distReqStep units r dist)
              (units.get ⟨i, hi⟩).id req.type = 0 := by
          rw [countFor_reqStep_other hty, h0]
        exact countFor_reqsGo_mem hU hids hi rs _ hnd.2 hmem' h0'

/-- C1.  For every non-empty unit list and every request in a request list
(unit ids and request types pairwise distinct, as produced by the parser
and by well-formed generation rules), the distribution planner assigns
unit `i` exactly `base + (1 if i < remainder else 0)` questions of the
request's type, the per-unit counts sum to the requested count, and any
two per-unit counts differ by at most 1. -/
theorem c1_distribution_even_split (units : List MUnit)
    (reqs : List QuestionTypeConfig) (req : QuestionTypeConfig)
    (hne : units ≠ []) (hids : (units.map MUnit.id).Nodup)
    (htys : (reqs.map QuestionTypeConfig.type).Nodup) (hmem : req ∈ reqs) :
    ∃ d, calculate_distribution units reqs = .ok d ∧
      (∀ i (hi : i < units.length),
        countFor d (units.get ⟨i, hi⟩).id req.type =
          req.count / units.length +
            (if i < req.count % units.length then 1 else 0)) ∧
      (units.map (fun u => countFor d u.id req.type)).sum = req.count ∧
      (∀ i j (hi : i < units.length) (hj : j < units.length),
        countFor d (units.get ⟨i, hi⟩).id req.type ≤
          countFor d (units.get ⟨j, hj⟩).id req.type + 1) := by
  have hU : units.length ≠ 0 := fun h =>
    hne (List.eq_nil_of_length_eq_zero h)
  -- pointwise formula, one index at a time
  have hpt : ∀ (i : Nat) (hi : i < units.length),
      ∃ d, calculate_distribution units reqs = .ok d ∧
        countFor d (units.get ⟨i, hi⟩).id req.type =
          req.count / units.length +
            (if i < req.count % units.length then 1 else 0) := by
    intro i hi
    exact countFor_reqsGo_mem hU hids hi reqs [] htys hmem rfl
  obtain ⟨d, hd, _⟩ := hpt 0 (Nat.pos_of_ne_zero hU)
  refine ⟨d, hd, ?_, ?_, ?_⟩
  · intro i hi
    obtain ⟨d', hd', hc'⟩ := hpt i hi
    rw [hd] at hd'
    cases hd'
    exact hc'
  · -- conservation
    have hform : ∀ i (hi : i < units.length),
        countFor d (units.get ⟨i, hi⟩).id req.type =
          req.count / units.length +
            (if i < req.count % units.length then 1 else 0) := by
      intro i hi
      obtain ⟨d', hd', hc'⟩ := hpt i hi
      rw [hd] at hd'
      cases hd'
      exact hc'
    have hmap :
        units.map (fun u => countFor d u.id req.type) =
          List.ofFn (fun i : Fin units.length =>
            req.count / units.length +
              (if i.val < req.count % units.length then 1 else 0)) := by
      conv_lhs => rw [← List.ofFn_get units]
      rw [List.map_ofFn]
      congr 1
      funext i
      exact hform i.val i.isLt
    rw [hmap, List.sum_ofFn,
      Fin.sum_univ_eq_sum_range
        (fun k => req.count / units.length +
          if k < req.count % units.length then 1 else 0) units.length,
      Finset.sum_add_distrib, Finset.sum_const, Finset.card_range,
      smul_eq_mul, Finset.sum_boole]
    have hflt :
        (Finset.range units.length).filter
            (fun i => i < req.count % units.length) =
          Finset.range (req.count % units.length) := by
      have hlt : req.count % units.length < units.length :=
        Nat.mod_lt _ (Nat.pos_of_ne_zero hU)
      ext x
      simp only [Finset.mem_filter, Finset.mem_range]
      omega
    rw [hflt, Finset.card_range]
    push_cast
    exact Nat.div_add_mod req.count units.length
  · intro i j hi hj
    obtain ⟨d', hd', hc'⟩ := hpt i hi
    obtain ⟨d'', hd'', hc''⟩ := hpt j hj
    rw [hd] at hd' hd''
    cases hd'
    cases hd''
    rw [hc', hc'']
    split <;> split <;> omega

/-- Witness for C1 at a concrete instance: 2 units, one request for 5
multiple-choice questions, checked at unit index 0 (it receives
`5 // 2 + 1 = 3`). -/
theorem c1_distribution_even_split_witness :
    ∃ d,
      calculate_distribution
          [⟨"unit_1", "Arrays", ["Insertion"], 1⟩,
            ⟨"unit_2", "Trees", ["BST"], 2⟩]
          [⟨1, 5, .multiple_choice, none⟩] = .ok d ∧
      (∀ i (hi : i < 2),
        countFor d
            (([⟨"unit_1", "Arrays", ["Insertion"], 1⟩,
              ⟨"unit_2", "Trees", ["BST"], 2⟩] : List MUnit).get
              ⟨i, hi⟩).id QuestionType.multiple_choice =
          5 / 2 + (if i < 5 % 2 then 1 else 0)) ∧
      (([⟨"unit_1", "Arrays", ["Insertion"], 1⟩,
          ⟨"unit_2", "Trees", ["BST"], 2⟩] : List MUnit).map
          (fun u => countFor d u.id QuestionType.multiple_choice)).sum
        = 5 ∧
      (∀ i j (hi : i < 2) (hj : j < 2),
        countFor d
            (([⟨"unit_1", "Arrays", ["Insertion"], 1⟩,
              ⟨"unit_2", "Trees", ["BST"], 2⟩] : List MUnit).get
              ⟨i, hi⟩).id QuestionType.multiple_choice ≤
          countFor d
              (([⟨"unit_1", "Arrays", ["Insertion"], 1⟩,
                ⟨"unit_2", "Trees", ["BST"], 2⟩] : List MUnit).get
                ⟨j, hj⟩).id QuestionType.multiple_choice + 1) :=
  c1_distribution_even_split
    [⟨"unit_1", "Arrays", ["Insertion"], 1⟩,
      ⟨"unit_2", "Trees", ["BST"], 2⟩]
    [⟨1, 5, .multiple_choice, none⟩] ⟨1, 5, .multiple_choice, none⟩
    (by decide) (by decide) (by decide) (by decide)

/-- C8 counterexample: with an empty request list the planner does not
fail on an empty unit list — the loop body is never entered and an empty
distribution is returned. -/
theorem c8_empty_units_counterexample :
    calculate_distribution [] [] = .ok ([] : Distribution) := rfl

/-- C8 (amended).  Invoking the planner with an empty unit list and a
non-empty request list fails fast: the first iteration's
`count // num_units` raises `ZeroDivisionError` rather than returning a
distribution.  (With an empty request list the loop never runs and an
empty distribution is returned.) -/
theorem c8_empty_units_fails (reqs : List QuestionTypeConfig)
    (h : reqs ≠ []) :
    calculate_distribution [] reqs =
      .error "integer division or modulo by zero" := by
  cases reqs with
  | nil => exact absurd rfl h
  | cons r rs => rfl

/-- Witness for C8 at a concrete request list. -/
theorem c8_empty_units_fails_witness :
    ([(⟨1, 5, .multiple_choice, none⟩ : QuestionTypeConfig)] ≠ []) ∧
    calculate_distribution [] [⟨1, 5, .multiple_choice, none⟩] =
      .error "integer division or modulo by zero" :=
  ⟨by decide, c8_empty_units_fails [⟨1, 5, .multiple_choice, none⟩]
    (by decide)⟩

/-! ## Synthesizer theorems -/

theorem string_append3_ne_empty (a b : String) (s : String)
    (ha : a.length ≠ 0) : a ++ s ++ b ≠ "" := by
  intro h
  have hl := congrArg String.length h
  rw [String.length_append, String.length_append] at hl
  have hz : ("" : String).length = 0 := rfl
  rw [hz] at hl
  omega

/-- C2.  If the external generation call yields an empty or missing
response on every attempt, the synthesizer makes exactly 3 attempts, then
returns the fallback question (it never raises to its caller: the
embedding is a total function into `Question`), and that fallback has a
non-empty `question_text` and a populated, non-empty `correct_answer`,
for every requested question type. -/
theorem c2_fallback_guarantee (u : MUnit) (marks : Nat)
    (qt : QuestionType) (d : DifficultyLevel)
    (gen : Nat → Option String) (hexes : Nat → String)
    (hempty : ∀ n, respEmpty (gen n) = true) :
    generate_single_question u marks qt d gen hexes =
      (create_fallback_question (hexes 2) u marks qt d, 3) ∧
    (create_fallback_question (hexes 2) u marks qt d).question_text ≠ "" ∧
    ∃ s,
      (create_fallback_question (hexes 2) u marks qt d).correct_answer =
        some s ∧ s ≠ "" := by
  refine ⟨?_, ?_, ?_⟩
  · have h0 := hempty 0
    have h1 := hempty 1
    have h2 := hempty 2
    simp [generate_single_question, genLoop, h0, h1, h2]
  · by_cases hqt : qt = QuestionType.multiple_choice
    · simp only [create_fallback_question, hqt, if_pos rfl]
      exact string_append3_ne_empty
        "Which of the following is related to " "?" u.title (by decide)
    · simp only [create_fallback_question, if_neg hqt]
      intro h
      have hl := congrArg String.length h
      rw [String.length_append, String.length_append,
        String.length_append] at hl
      have hz : ("" : String).length = 0 := rfl
      have ha :
          0 < ("Explain the key concepts covered in " : String).length :=
        by decide
      rw [hz] at hl
      omega
  · by_cases hqt : qt = QuestionType.multiple_choice
    · exact ⟨"A", by simp [create_fallback_question, hqt], by decide⟩
    · refine ⟨"Students should explain: " ++
        (if u.topics ≠ [] then String.intercalate ", " (u.topics.take 3)
          else u.title), by simp [create_fallback_question, hqt], ?_⟩
      intro h
      have hl := congrArg String.length h
      rw [String.length_append] at hl
      have hz : ("" : String).length = 0 := rfl
      have ha : 0 < ("Students should explain: " : String).length :=
        by decide
      rw [hz] at hl
      omega

/-- Witness for C2: a stub generation call that always returns `none`. -/
theorem c2_fallback_guarantee_witness :
    (∀ n : Nat, respEmpty ((fun _ => none : Nat → Option String) n)
      = true) ∧
    (generate_single_question ⟨"unit_1", "Alpha", ["T1", "T2"], 1⟩ 1
        .short_answer .medium (fun _ => none) (fun _ => "abcdef12") =
      (create_fallback_question "abcdef12"
        ⟨"unit_1", "Alpha", ["T1", "T2"], 1⟩ 1 .short_answer .medium,
        3) ∧
    (create_fallback_question "abcdef12"
        ⟨"unit_1", "Alpha", ["T1", "T2"], 1⟩ 1 .short_answer
        .medium).question_text ≠ "" ∧
    ∃ s,
      (create_fallback_question "abcdef12"
          ⟨"unit_1", "Alpha", ["T1", "T2"], 1⟩ 1 .short_answer
          .medium).correct_answer = some s ∧ s ≠ "") :=
  ⟨fun _ => rfl,
    c2_fallback_guarantee ⟨"unit_1", "Alpha", ["T1", "T2"], 1⟩ 1
      .short_answer .medium (fun _ => none) (fun _ => "abcdef12")
      (fun _ => rfl)⟩

/-- C9 counterexample: two invocations of the fallback constructor draw
fresh uuid hex digits (`f"q_{uuid.uuid4().hex[:8]}"`), so the produced
questions differ in their `id` field; they are not equal in every
field. -/
theorem c9_fallback_not_fully_deterministic :
    create_fallback_question "aaaaaaaa" ⟨"unit_1", "Alpha", ["T1", "T2"], 1⟩
        1 .multiple_choice .medium ≠
      create_fallback_question "bbbbbbbb"
        ⟨"unit_1", "Alpha", ["T1", "T2"], 1⟩ 1 .multiple_choice .medium :=
  by decide

/-- C9 (amended).  Fallback synthesis is deterministic in every field
except the randomly drawn `id`: two invocations with the same unit,
marks, question type, and difficulty agree on all other fields, whatever
uuid hex digits each invocation draws. -/
theorem c9_fallback_content_deterministic (h1 h2 : String) (u : MUnit)
    (marks : Nat) (qt : QuestionType) (d : DifficultyLevel) :
    (create_fallback_question h1 u marks qt d).unit_id =
      (create_fallback_question h2 u marks qt d).unit_id ∧
    (create_fallback_question h1 u marks qt d).unit_name =
      (create_fallback_question h2 u marks qt d).unit_name ∧
    (create_fallback_question h1 u marks qt d).question_text =
      (create_fallback_question h2 u marks qt d).question_text ∧
    (create_fallback_question h1 u marks qt d).marks =
      (create_fallback_question h2 u marks qt d).marks ∧
    (create_fallback_question h1 u marks qt d).type =
      (create_fallback_question h2 u marks qt d).type ∧
    (create_fallback_question h1 u marks qt d).difficulty =
      (create_fallback_question h2 u marks qt d).difficulty ∧
    (create_fallback_question h1 u marks qt d).options =
      (create_fallback_question h2 u marks qt d).options ∧
    (create_fallback_question h1 u marks qt d).correct_answer =
      (create_fallback_question h2 u marks qt d).correct_answer ∧
    (create_fallback_question h1 u marks qt d).answer_explanation =
      (create_fallback_question h2 u marks qt d).answer_explanation ∧
    (create_fallback_question h1 u marks qt d).course_outcome =
      (create_fallback_question h2 u marks qt d).course_outcome ∧
    (create_fallback_question h1 u marks qt d).blooms_level =
      (create_fallback_question h2 u marks qt d).blooms_level := by
  by_cases hqt : qt = QuestionType.multiple_choice <;>
    simp [create_fallback_question, hqt]

/-- C10.  An external response consisting of a JSON object with only a
long-enough `question` string — no `options`, no `correct_answer` — is
accepted as valid on the first attempt for every requested question type
(including multiple choice and true/false): the synthesizer returns after
one attempt a question whose `options` and `correct_answer` are both
`None`; the per-type required-field rules live only in the generation
prompt and are not validated on the returned object. -/
theorem c10_no_per_type_validation (u : MUnit) (marks : Nat)
    (qt : QuestionType) (d : DifficultyLevel) (hexes : Nat → String) :
    (generate_single_question u marks qt d
        (fun _ => some validFieldlessResponse) hexes).2 = 1 ∧
    (generate_single_question u marks qt d
        (fun _ => some validFieldlessResponse) hexes).1.options = none ∧
    (generate_single_question u marks qt d
        (fun _ => some validFieldlessResponse) hexes).1.correct_answer =
      none ∧
    (generate_single_question u marks qt d
        (fun _ => some validFieldlessResponse) hexes).1.question_text =
      "What is the asymptotic running time of binary search?" := by
  have hne : respEmpty (some validFieldlessResponse) = false := by decide
  have hp : parse_response validFieldlessResponse.data =
      .ok [("question",
        JVal.str "What is the asymptotic running time of binary search?")] :=
    rfl
  have hqi : questionFieldInvalid
      [("question",
        JVal.str "What is the asymptotic running time of binary search?")] =
      false := by decide
  have hb : buildQuestion (hexes 0) u marks qt d
      [("question",
        JVal.str "What is the asymptotic running time of binary search?")] =
    .ok { id := "q_" ++ hexes 0, unit_id := u.id, unit_name := u.title,
          question_text :=
            "What is the asymptotic running time of binary search?",
          marks := marks, type := qt, difficulty := d, options := none,
          correct_answer := none, answer_explanation := none,
          course_outcome := some "CO1", blooms_level := some "K1" } := rfl
  simp [generate_single_question, genLoop, hne, hp, hqi, hb]

/-! ## Parser theorems -/

/-- C3.  Evaluation of the parser at the specified scenario input.  The
expected output (two units `unit_1`/"Arrays"/["Insertion","Deletion"] and
`unit_2`/"Trees"/["BST","AVL"]) is NOT produced: the preprocessing
line-merger joins each bullet line into the preceding header (headers do
not end in terminal punctuation and bullet lines do not look like section
starts), Tier 1 then sees two header-only lines, keeps no unit with
topics, and the parser falls through to Tier 3, which returns a single
unit whose title is the first merged line and whose only topic is the
second merged line. -/
theorem c3_scenario_actual_output :
    parse_text "Unit 1: Arrays\n- Insertion\n- Deletion\nUnit 2: Trees\n- BST\n- AVL" =
      [⟨"unit_1", "Unit 1: Arrays - Insertion - Deletion",
        ["Unit 2: Trees - BST - AVL"], 1⟩] := by decide

/-- C4 counterexample: the reference line "Textbook: Cormen, 3rd Edition,
Pearson" (which the filter matches) comes back from the parser as both a
unit title and a topic — the Tier-3 last resort applies no reference
filtering and the post-filter is bypassed on the escalation path. -/
theorem c4_reference_line_in_output :
    should_skip_line "Textbook: Cormen, 3rd Edition, Pearson".data = true ∧
    parse_text "Textbook: Cormen, 3rd Edition, Pearson" =
      [⟨"unit_1", "Textbook: Cormen, 3rd Edition, Pearson",
        ["Textbook: Cormen, 3rd Edition, Pearson"], 1⟩] := by decide

/-- C5 counterexample: on the empty input no tier produces a unit — the
Tier-3 last resort finds no line longer than 3 characters — and
`parse_text` returns an empty list, not a single-unit result. -/
theorem c5_empty_input_empty_output :
    parse_text "" = [] := by decide

/-- C6 counterexample: normalization is not idempotent.  Removing the
case-insensitive literal `EnggTree.com` from
"EnggTrEnggTree.comee.com" splices together a new occurrence, so a
second normalization pass removes it too. -/
theorem c6_normalizer_not_idempotent :
    preprocess_pdf_text
        (preprocess_pdf_text "EnggTrEnggTree.comee.com".data) ≠
      preprocess_pdf_text "EnggTrEnggTree.comee.com".data := by decide

/-- C7 counterexample: a header whose cleaned title is shorter than 3
characters ("Unit 2: ab.") increments `unit_count` without creating a
unit, and the save-on-next-header logic then appends the aliased previous
unit object a second time: the output orders are [1, 1, 3], not the
1-based positions [1, 2, 3], and the ids repeat `unit_1` and skip
`unit_2`. -/
theorem c7_orders_not_sequential :
    (parse_text "Unit 1: Alpha.\nTopica one.\nUnit 2: ab.\nTopicb two.\nUnit 3: Gamma.\nTopicc three.").map
        MUnit.order = [1, 1, 3] ∧
    (parse_text "Unit 1: Alpha.\nTopica one.\nUnit 2: ab.\nTopicb two.\nUnit 3: Gamma.\nTopicc three.").map
        MUnit.id = ["unit_1", "unit_1", "unit_3"] ∧
    ¬ ((parse_text "Unit 1: Alpha.\nTopica one.\nUnit 2: ab.\nTopicb two.\nUnit 3: Gamma.\nTopicc three.").map
        MUnit.order =
      List.map (fun i => i + 1)
        (List.range (parse_text "Unit 1: Alpha.\nTopica one.\nUnit 2: ab.\nTopicb two.\nUnit 3: Gamma.\nTopicc three.").length)) := by
  decide

theorem pageNumMatchAt_none_of_head {c : Char} (cs : List Char)
    (hc : c ≠ '\n') : pageNumMatchAt (c :: cs) = none := by
  simp [pageNumMatchAt, hc]

theorem reSubGen_pageNums_id :
    ∀ (fuel : Nat) (s : List Char), '\n' ∉ s →
      reSubGen pageNumMatchAt ['\n'] fuel s = s
  | 0, s, _ => rfl
  | _ + 1, [], _ => rfl
  | fuel + 1, c :: cs, h => by
      have hc : c ≠ '\n' := fun hh => h (hh ▸ List.mem_cons_self c cs)
      rw [reSubGen, pageNumMatchAt_none_of_head cs hc,
        reSubGen_pageNums_id fuel cs (fun hm => h (List.mem_cons_of_mem c hm))]

theorem splitNl_no_nl : ∀ (s : List Char), '\n' ∉ s → splitNl s = [s]
  | [], _ => rfl
  | c :: cs, h => by
      have hc : c ≠ '\n' := fun hh => h (hh ▸ List.mem_cons_self c cs)
      rw [splitNl, if_neg hc,
        splitNl_no_nl cs (fun hm => h (List.mem_cons_of_mem c hm))]

theorem intercalate_single (sep x : List Char) :
    List.intercalate sep [x] = x := by
  simp [List.intercalate, List.intersperse]

theorem fixLines_single (l : List Char) (h : ¬ (trimC l).isEmpty) :
    fixLines 1 [l] = [trimC l] := by
  simp [fixLines, absorbLines, h]

/-- C6 (amended).  Normalization is not idempotent in general (see the
counterexample: boilerplate removal can splice together a new boilerplate
occurrence, and page-number deletion is a non-overlapping scan).  It is a
no-op — and hence idempotent — on inputs on which each stage is inert:
single-line text that is already stripped and space-collapsed and is a
fixed point of both boilerplate removals. -/
theorem c6_normalizer_idempotent_on_inert (s : List Char)
    (hnl : '\n' ∉ s) (htrim : trimC s = s)
    (hcol : collapseSpaces s = s) (hdl : removeDownloaded s = s)
    (heg : removeEnggtree s = s) :
    preprocess_pdf_text s = s ∧
    preprocess_pdf_text (preprocess_pdf_text s) = preprocess_pdf_text s := by
  have hfix : preprocess_pdf_text s = s := by
    simp only [preprocess_pdf_text, removePageNums]
    rw [hdl, heg, reSubGen_pageNums_id s.length s hnl, splitNl_no_nl s hnl]
    cases s with
    | nil => rfl
    | cons c cs =>
        have hne : ¬ (trimC (c :: cs)).isEmpty := by
          rw [htrim]; simp
        simp only [List.length_singleton]
        rw [fixLines_single _ hne, htrim, intercalate_single]
        exact hcol
  exact ⟨hfix, by rw [hfix, hfix]⟩

/-- Witness for C6 on a concrete inert input. -/
theorem c6_normalizer_idempotent_on_inert_witness :
    ('\n' ∉ "Hello world.".data ∧
      trimC "Hello world.".data = "Hello world.".data ∧
      collapseSpaces "Hello world.".data = "Hello world.".data ∧
      removeDownloaded "Hello world.".data = "Hello world.".data ∧
      removeEnggtree "Hello world.".data = "Hello world.".data) ∧
    (preprocess_pdf_text "Hello world.".data = "Hello world.".data ∧
      preprocess_pdf_text (preprocess_pdf_text "Hello world.".data) =
        preprocess_pdf_text "Hello world.".data) :=
  ⟨⟨by decide, by decide, by decide, by decide, by decide⟩,
    c6_normalizer_idempotent_on_inert "Hello world.".data (by decide)
      (by decide) (by decide) (by decide) (by decide)⟩

theorem lastResortLines_mem (content : List Char) {l : List Char}
    (hl : l ∈ splitNl content) (hlen : 3 < (trimC l).length) :
    trimC l ∈ lastResortLines content := by
  apply List.mem_filter.mpr
  refine ⟨List.mem_map_of_mem _ hl, ?_⟩
  have hne : ¬ (trimC l).isEmpty := by
    cases h : trimC l with
    | nil => rw [h] at hlen; simp at hlen
    | cons a as => simp
  simp [hne, hlen]

theorem lastResort_ne_nil (content : List Char)
    (h : ∃ l ∈ splitNl content, 3 < (trimC l).length) :
    lastResort content ≠ [] := by
  obtain ⟨l, hl, hlen⟩ := h
  have hmem := lastResortLines_mem content hl hlen
  unfold lastResort
  cases hc : lastResortLines content with
  | nil => rw [hc] at hmem; exact absurd hmem (List.not_mem_nil _)
  | cons a rest => simp

theorem smart_parse_ne_nil (content : List Char)
    (h : ∃ l ∈ splitNl content, 3 < (trimC l).length) :
    smart_parse_without_units content ≠ [] := by
  simp only [smart_parse_without_units]
  split
  · rename_i hne
    intro hc
    rw [hc] at hne
    exact absurd rfl hne
  · exact lastResort_ne_nil content h

theorem parseFilterEscalate_ne_nil (content : List Char)
    (us : List MUnit) (hs : smart_parse_without_units content ≠ []) :
    parseFilterEscalate content us ≠ [] := by
  simp only [parseFilterEscalate]
  split
  · split
    · rename_i h3
      intro hc
      rw [hc] at h3
      simp at h3
    · split
      · exact hs
      · rename_i h4
        intro hc
        rw [hc] at h4
        exact absurd rfl h4
  · rename_i h2
    intro hc
    rw [hc] at h2
    simp at h2

/-- C5 (amended).  `parse_text` is a total function of its input (the
embedding never raises), and whenever the preprocessed content contains
at least one line whose stripped form is longer than 3 characters the
result is non-empty — in the worst case a single unit from Tier 3's last
resort.  (For inputs with no such line, e.g. the empty string, the last
resort finds no lines and an empty list is returned; see the
counterexample.) -/
theorem c5_parse_nonempty (raw : List Char)
    (h : ∃ l ∈ splitNl (preprocess_pdf_text raw), 3 < (trimC l).length) :
    parse_textL raw ≠ [] := by
  simp only [parse_textL]
  exact parseFilterEscalate_ne_nil _ _ (smart_parse_ne_nil _ h)

/-- Witness for C5 at a concrete input with a long-enough line. -/
theorem c5_parse_nonempty_witness :
    (∃ l ∈ splitNl (preprocess_pdf_text "Hello there.".data),
      3 < (trimC l).length) ∧
    parse_textL "Hello there.".data ≠ [] :=
  ⟨by decide, c5_parse_nonempty "Hello there.".data (by decide)⟩

theorem t1Materialize_id
    (dn : List (List Char × Nat × List (List Char)) × List Nat) :
    ∀ u ∈ t1Materialize dn, u.id = "unit_" ++ toString u.order := by
  intro u hu
  simp only [t1Materialize] at hu
  obtain ⟨j, _, rfl⟩ := List.mem_map.mp hu
  rfl

theorem inlineBuild_id (content : List Char) :
    ∀ (ms : List (Nat × List Char × List Char × Nat)) (i : Nat)
      (u : MUnit), u ∈ inlineBuild content ms i →
      u.id = "unit_" ++ toString u.order
  | [], _, u, hu => absurd hu (List.not_mem_nil u)
  | m :: rest, i, u, hu => by
      simp only [inlineBuild] at hu
      split at hu
      · rcases List.mem_cons.mp hu with rfl | hu'
        · rfl
        · exact inlineBuild_id content rest (i + 1) u hu'
      · exact inlineBuild_id content rest (i + 1) u hu

theorem smartSections_id :
    ∀ (secs : List (List Char)) (i : Nat) (u : MUnit),
      u ∈ smartSections secs i → u.id = "unit_" ++ toString u.order
  | [], _, u, hu => absurd hu (List.not_mem_nil u)
  | sec :: rest, i, u, hu => by
      simp only [smartSections] at hu
      split at hu
      · exact smartSections_id rest (i + 1) u hu
      · repeat' split at hu
        all_goals
          first
          | exact smartSections_id rest (i + 1) u hu
          | (obtain rfl | hu' := List.mem_cons.mp hu
             · rfl
             · exact smartSections_id rest (i + 1) u hu')

theorem lastResort_id (content : List Char) :
    ∀ u ∈ lastResort content, u.id = "unit_" ++ toString u.order := by
  intro u hu
  simp only [lastResort] at hu
  split at hu
  · exact absurd hu (List.not_mem_nil u)
  · rcases List.mem_cons.mp hu with rfl | hu'
    · show ("unit_1" : String) = "unit_" ++ toString (1 : Nat)
      decide
    · exact absurd hu' (List.not_mem_nil u)

theorem smart_parse_id (content : List Char) :
    ∀ u ∈ smart_parse_without_units content,
      u.id = "unit_" ++ toString u.order := by
  intro u hu
  simp only [smart_parse_without_units] at hu
  split at hu
  · exact smartSections_id _ 1 u hu
  · exact lastResort_id content u hu

theorem t1Units_id (content : List Char) :
    ∀ u ∈ t1Units content, u.id = "unit_" ++ toString u.order := by
  intro u hu
  exact t1Materialize_id _ u hu

theorem parseFilterEscalate_id (content : List Char) (us : List MUnit)
    (hus : ∀ u ∈ us, u.id = "unit_" ++ toString u.order) :
    ∀ u ∈ parseFilterEscalate content us,
      u.id = "unit_" ++ toString u.order := by
  intro u hu
  simp only [parseFilterEscalate] at hu
  split at hu
  · split at hu
    · exact inlineBuild_id content _ 0 u (by
        simp only [extract_units_from_inline_text] at hu
        split at hu
        · exact absurd hu (List.not_mem_nil u)
        · exact hu)
    · split at hu
      · exact smart_parse_id content u hu
      · exact hus u (List.mem_of_mem_filter hu)
  · exact hus u (List.mem_of_mem_filter hu)

theorem extract_inline_id (content : List Char) :
    ∀ u ∈ extract_units_from_inline_text content,
      u.id = "unit_" ++ toString u.order := by
  intro u hu
  simp only [extract_units_from_inline_text] at hu
  split at hu
  · exact absurd hu (List.not_mem_nil u)
  · exact inlineBuild_id content _ 0 u hu

/-- C7 (amended).  Every unit returned by the parser — through any tier —
satisfies `id = "unit_" + str(order)`, because every construction site
uses the same number for both fields.  The order values themselves are
NOT in general the 1-based sequential positions 1..k: Tier 1 skips a
counter value when a header's cleaned title is shorter than 3 characters
(and can append the same aliased unit twice), Tier 2 takes orders from
roman numerals in the text, and Tier 3 skips section numbers of skipped
sections (see the counterexample). -/
theorem c7_id_matches_order (raw : List Char) :
    ∀ u ∈ parse_textL raw, u.id = "unit_" ++ toString u.order := by
  intro u hu
  simp only [parse_textL] at hu
  refine parseFilterEscalate_id _ _ ?_ u hu
  intro v hv
  repeat' split at hv
  all_goals
    first
    | exact smart_parse_id _ v hv
    | exact extract_inline_id _ v hv
    | exact t1Units_id _ v hv

/-- Witness for C7 at a concrete input and unit. -/
theorem c7_id_matches_order_witness :
    ((⟨"unit_1", "Unit 1: Arrays - Insertion - Deletion",
        ["Unit 2: Trees - BST - AVL"], 1⟩ : MUnit) ∈
      parse_textL "Unit 1: Arrays\n- Insertion\n- Deletion\nUnit 2: Trees\n- BST\n- AVL".data) ∧
    (⟨"unit_1", "Unit 1: Arrays - Insertion - Deletion",
        ["Unit 2: Trees - BST - AVL"], 1⟩ : MUnit).id =
      "unit_" ++ toString
        (⟨"unit_1", "Unit 1: Arrays - Insertion - Deletion",
          ["Unit 2: Trees - BST - AVL"], 1⟩ : MUnit).order :=
  ⟨by decide,
    c7_id_matches_order
      "Unit 1: Arrays\n- Insertion\n- Deletion\nUnit 2: Trees\n- BST\n- AVL".data
      ⟨"unit_1", "Unit 1: Arrays - Insertion - Deletion",
        ["Unit 2: Trees - BST - AVL"], 1⟩ (by decide)⟩

/-! ## Monotonicity of the reference filter under infixes (for C4) -/

theorem matchToks_nil_all :
    ∀ (ts : List SkipTok), matchToks ts [] = true →
      ∀ s, matchToks ts s = true
  | [], _, _ => rfl
  | .lit w :: ts, h, s => by
      cases w with
      | nil =>
          simp only [matchToks, startsWithCI, Bool.true_and,
            List.length_nil, List.drop_zero] at h ⊢
          exact matchToks_nil_all ts h s
      | cons c cs => simp [matchToks, startsWithCI] at h
  | .ws0 :: ts, h, s => by
      simp only [matchToks, List.dropWhile_nil] at h
      simp only [matchToks]
      exact matchToks_nil_all ts h _
  | .ws1 :: ts, h, s => by
      simp [matchToks] at h

theorem startsWithCI_append {w s : List Char} (b : List Char)
    (h : startsWithCI w s = true) : startsWithCI w (s ++ b) = true := by
  induction w generalizing s with
  | nil => rfl
  | cons p ps ih =>
      cases s with
      | nil => simp [startsWithCI] at h
      | cons c cs =>
          simp only [startsWithCI, Bool.and_eq_true] at h
          simp only [List.cons_append, startsWithCI, Bool.and_eq_true]
          exact ⟨h.1, ih h.2⟩

theorem startsWithCI_length {w s : List Char}
    (h : startsWithCI w s = true) : w.length ≤ s.length := by
  induction w generalizing s with
  | nil => simp
  | cons p ps ih =>
      cases s with
      | nil => simp [startsWithCI] at h
      | cons c cs =>
          simp only [startsWithCI, Bool.and_eq_true] at h
          simpa using ih h.2

theorem matchToks_append :
    ∀ (ts : List SkipTok) (s b : List Char), matchToks ts s = true →
      matchToks ts (s ++ b) = true
  | [], _, _, _ => rfl
  | .lit w :: ts, s, b, h => by
      simp only [matchToks, Bool.and_eq_true] at h ⊢
      refine ⟨startsWithCI_append b h.1, ?_⟩
      rw [List.drop_append_of_le_length (startsWithCI_length h.1)]
      exact matchToks_append ts _ b h.2
  | .ws0 :: ts, s, b, h => by
      simp only [matchToks] at h ⊢
      rw [List.dropWhile_append]
      by_cases he : (s.dropWhile isSpaceC).isEmpty
      · rw [if_pos he]
        rw [List.isEmpty_iff] at he
        rw [he] at h
        exact matchToks_nil_all ts h _
      · rw [if_neg he]
        exact matchToks_append ts _ b h
  | .ws1 :: ts, s, b, h => by
      cases s with
      | nil => simp [matchToks] at h
      | cons c r =>
          simp only [matchToks, Bool.and_eq_true] at h
          simp only [List.cons_append, matchToks, Bool.and_eq_true]
          refine ⟨h.1, ?_⟩
          rw [List.dropWhile_append]
          by_cases he : (r.dropWhile isSpaceC).isEmpty
          · rw [if_pos he]
            rw [List.isEmpty_iff] at he
            rw [he] at h
            exact matchToks_nil_all ts h.2 _
          · rw [if_neg he]
            exact matchToks_append ts _ b h.2

theorem skipMatchHere_append {s : List Char} (b : List Char)
    (h : skipMatchHere s = true) : skipMatchHere (s ++ b) = true := by
  simp only [skipMatchHere, List.any_eq_true] at h ⊢
  obtain ⟨t, ht, hm⟩ := h
  exact ⟨t, ht, matchToks_append t s b hm⟩

theorem searchSkip_append_right :
    ∀ (s b : List Char), searchSkip s = true → searchSkip (s ++ b) = true
  | [], _, h => by simp [searchSkip] at h
  | c :: cs, b, h => by
      simp only [searchSkip, Bool.or_eq_true] at h
      simp only [List.cons_append, searchSkip, Bool.or_eq_true]
      rcases h with h | h
      · exact Or.inl (by
          have := skipMatchHere_append b h
          simpa using this)
      · exact Or.inr (searchSkip_append_right cs b h)

theorem searchSkip_append_left :
    ∀ (a s : List Char), searchSkip s = true → searchSkip (a ++ s) = true
  | [], _, h => h
  | c :: cs, s, h => by
      simp only [List.cons_append, searchSkip, Bool.or_eq_true]
      exact Or.inr (searchSkip_append_left cs s h)

theorem should_skip_line_of_isInfix {t' t : List Char} (hinf : t' <:+: t)
    (h : should_skip_line t' = true) : should_skip_line t = true := by
  obtain ⟨a, b, rfl⟩ := hinf
  show searchSkip (a ++ t' ++ b) = true
  rw [List.append_assoc]
  exact searchSkip_append_left a _
    (searchSkip_append_right t' b h)

theorem dropWhile_isSuffix (p : Char → Bool) (s : List Char) :
    s.dropWhile p <:+ s := by
  induction s with
  | nil => exact List.suffix_rfl
  | cons c cs ih =>
      by_cases hc : p c
      · rw [List.dropWhile_cons_of_pos hc]
        exact ih.trans (List.suffix_cons c cs)
      · rw [List.dropWhile_cons_of_neg hc]

theorem trimC_isInfix (s : List Char) : trimC s <:+: s := by
  unfold trimC
  have h1 : s.dropWhile isSpaceC <:+ s := dropWhile_isSuffix _ s
  have h2 : (s.dropWhile isSpaceC).reverse.dropWhile isSpaceC <:+
      (s.dropWhile isSpaceC).reverse := dropWhile_isSuffix _ _
  obtain ⟨t, ht⟩ := h2
  have hpre : ((s.dropWhile isSpaceC).reverse.dropWhile
      isSpaceC).reverse <+: s.dropWhile isSpaceC := by
    refine ⟨t.reverse, ?_⟩
    rw [← List.reverse_append, ht, List.reverse_reverse]
  exact hpre.isInfix.trans h1.isInfix

theorem stripTrailingPunct_isPrefix (t : List Char) :
    stripTrailingPunct t <+: t := by
  unfold stripTrailingPunct
  obtain ⟨u, hu⟩ := dropWhile_isSuffix
    (fun c => c = ':' || c = '.' || c = '-' || c = '–' || c = '—')
    t.reverse
  refine ⟨u.reverse, ?_⟩
  rw [← List.reverse_append, hu, List.reverse_reverse]

theorem title2_skip_false {g2 : List Char}
    (h : ¬ should_skip_line (trimC g2) = true) :
    should_skip_line (trimC (stripTrailingPunct (trimC g2))) = false := by
  have hinf : trimC (stripTrailingPunct (trimC g2)) <:+: trimC g2 :=
    (trimC_isInfix _).trans (stripTrailingPunct_isPrefix _).isInfix
  cases hb : should_skip_line (trimC (stripTrailingPunct (trimC g2))) with
  | false => rfl
  | true => exact absurd (should_skip_line_of_isInfix hinf hb) h

theorem t1TryPats_inv (line : List Char) :
    ∀ (pats : List (List Char → Option (List Char))) (st : T1State),
      t1SkipInv st → t1SkipInv (t1TryPats pats st line).1
  | [], st, h => h
  | p :: ps, st, h => by
      simp only [t1TryPats]
      split
      · exact t1TryPats_inv line ps st h
      · split
        · exact t1TryPats_inv line ps st h
        · rename_i hskip
          split
          · exact t1TryPats_inv line ps
              ⟨st.done, _, st.cur, st.curTopics, st.count + 1⟩
              ⟨h.1, h.2.1, h.2.2⟩
          · refine ⟨?_, ?_, ?_⟩
            · intro e he
              rcases List.mem_append.mp he with he1 | he2
              · exact h.1 e he1
              · revert he2
                cases hcur : st.cur with
                | none => intro he2; exact absurd he2 (List.not_mem_nil e)
                | some pr =>
                    obtain ⟨t, o⟩ := pr
                    intro he2
                    rcases List.mem_singleton.mp he2 with rfl
                    exact ⟨h.2.1 t o hcur, h.2.2⟩
            · intro t o hto
              simp only [Option.some.injEq, Prod.mk.injEq] at hto
              rw [← hto.1]
              exact title2_skip_false hskip
            · intro tp htp
              exact absurd htp (List.not_mem_nil tp)

theorem t1Line_inv (st : T1State) (rawLine : List Char)
    (h : t1SkipInv st) : t1SkipInv (t1Line st rawLine) := by
  simp only [t1Line]
  split
  · exact h
  · split
    · exact h
    · have hst' := t1TryPats_inv (trimC rawLine) unitPatterns st h
      split
      · rename_i st' heq
        rw [heq] at hst'
        exact hst'
      · rename_i st' heq
        rw [heq] at hst'
        split
        · exact hst'
        · rename_i pr hpr
          split
          · exact hst'
          · rename_i hskipTopic
            split
            · exact ⟨hst'.1, hst'.2.1, by
                intro tp htp
                rcases List.mem_append.mp htp with h1 | h2
                · exact hst'.2.2 tp h1
                · rcases List.mem_singleton.mp h2 with rfl
                  simpa using hskipTopic⟩
            · exact hst'

theorem t1fold_inv :
    ∀ (lines : List (List Char)) (st : T1State), t1SkipInv st →
      t1SkipInv (lines.foldl t1Line st)
  | [], _, h => h
  | l :: rest, st, h =>
      t1fold_inv rest (t1Line st l) (t1Line_inv st l h)

theorem t1Init_inv : t1SkipInv t1Init :=
  ⟨fun e he => absurd he (List.not_mem_nil e),
    fun t o hto => by simp [t1Init] at hto,
    fun tp htp => absurd htp (List.not_mem_nil tp)⟩

theorem t1Finish_inv (st : T1State) (h : t1SkipInv st) :
    ∀ e ∈ (t1Finish st).1, should_skip_line e.1 = false ∧
      ∀ tp ∈ e.2.2, should_skip_line tp = false := by
  intro e he
  simp only [t1Finish] at he
  revert he
  cases hcur : st.cur with
  | none => intro he; exact h.1 e he
  | some pr =>
      obtain ⟨t, o⟩ := pr
      intro he
      rcases List.mem_append.mp he with he1 | he2
      · exact h.1 e he1
      · rcases List.mem_singleton.mp he2 with rfl
        exact ⟨h.2.1 t o hcur, h.2.2⟩

/-- C4 (amended).  In the Tier-1 line-anchored pass, the reference filter
is enforced everywhere: no unit title and no topic of `t1Units` matches
`_should_skip_line` — in particular the line "Textbook: Cormen, 3rd
Edition, Pearson" can never appear there.  The original claim fails for
the other tiers: Tier 3 applies no reference filtering and its output
bypasses the post-filter on the escalation path, so that line can appear
as a title and topic in full parser output (see the counterexample). -/
theorem c4_tier1_reference_filtered (content : List Char) :
    ∀ u ∈ t1Units content,
      shouldSkipStr u.title = false ∧
      ∀ t ∈ u.topics, should_skip_line t.data = false := by
  intro u hu
  have hinv : t1SkipInv ((splitNl content).foldl t1Line t1Init) :=
    t1fold_inv _ _ t1Init_inv
  have hdone := t1Finish_inv _ hinv
  simp only [t1Units, t1Materialize] at hu
  obtain ⟨j, _, rfl⟩ := List.mem_map.mp hu
  set dn := t1Finish ((splitNl content).foldl t1Line t1Init) with hdn
  have hentry : should_skip_line (dn.1.getD j ([], 0, [])).1 = false ∧
      ∀ tp ∈ (dn.1.getD j ([], 0, [])).2.2,
        should_skip_line tp = false := by
    by_cases hj : j < dn.1.length
    · rw [List.getD_eq_getElem dn.1 _ hj]
      exact hdone _ (List.getElem_mem hj)
    · rw [List.getD_eq_default dn.1 _ (Nat.le_of_not_lt hj)]
      exact ⟨rfl, fun tp htp => absurd htp (List.not_mem_nil tp)⟩
  refine ⟨hentry.1, ?_⟩
  intro t ht
  obtain ⟨tp, htp, rfl⟩ := List.mem_map.mp ht
  exact hentry.2 tp htp

/-- Witness for C4 at a concrete content and unit. -/
theorem c4_tier1_reference_filtered_witness :
    ((⟨"unit_1", "Arrays", ["Insertion", "Deletion"], 1⟩ : MUnit) ∈
      t1Units "Unit 1: Arrays\n- Insertion\n- Deletion".data) ∧
    (shouldSkipStr
        (⟨"unit_1", "Arrays", ["Insertion", "Deletion"], 1⟩ :
          MUnit).title = false ∧
      ∀ t ∈ (⟨"unit_1", "Arrays", ["Insertion", "Deletion"], 1⟩ :
          MUnit).topics, should_skip_line t.data = false) :=
  ⟨by decide,
    c4_tier1_reference_filtered "Unit 1: Arrays\n- Insertion\n- Deletion".data
      ⟨"unit_1", "Arrays", ["Insertion", "Deletion"], 1⟩ (by decide)⟩
